import Mathlib

/-
Verification of the small-language compiler (parser combinators, AST,
frame analysis, assembly and structured-IR code generators).

The TypeScript sources are embedded shallowly:

* AST nodes (`ast.ts`) become the inductive type `AST`.  Every constructor
  carries a `ref : Nat` field modelling JavaScript object identity (the
  allocation of a node with `new`); the `===` operator on two nodes is
  modelled as equality of their `ref` fields, while `equals` is the
  structural-equality method translated case by case from the source.
* JavaScript `Map` objects are modelled as association lists where `set`
  prepends and `get`/`has` take the first matching entry.
* Methods that can `throw` return `Except String`; the thrown message is
  the string carried by `.error`.
-/

set_option maxHeartbeats 1000000

/-- AST node taxonomy from `ast.ts`.  Each constructor's first field `ref`
models the identity of the allocated JavaScript object; the remaining
fields are the constructor arguments of the corresponding class. -/
inductive AST where
  | number (ref : Nat) (value : Int)
  | id (ref : Nat) (value : String)
  | not (ref : Nat) (term : AST)
  | equal (ref : Nat) (left : AST) (right : AST)
  | notEqual (ref : Nat) (left : AST) (right : AST)
  | add (ref : Nat) (left : AST) (right : AST)
  | subtract (ref : Nat) (left : AST) (right : AST)
  | multiply (ref : Nat) (left : AST) (right : AST)
  | divide (ref : Nat) (left : AST) (right : AST)
  | call (ref : Nat) (callee : String) (args : List AST)
  | ret (ref : Nat) (term : AST)
  | block (ref : Nat) (statements : List AST)
  | ifS (ref : Nat) (conditional : AST) (consequence : AST) (alternative : AST)
  | func (ref : Nat) (name : String) (parameters : List String) (body : AST)
  | var (ref : Nat) (name : String) (value : AST)
  | assign (ref : Nat) (name : String) (value : AST)
  | whileS (ref : Nat) (conditional : AST) (body : AST)
  | module (ref : Nat) (functions : List AST)
deriving Repr

/-- Identity of a node: the allocation tag carried by every constructor. -/
def AST.ref : AST → Nat
  | .number r _ => r
  | .id r _ => r
  | .not r _ => r
  | .equal r _ _ => r
  | .notEqual r _ _ => r
  | .add r _ _ => r
  | .subtract r _ _ => r
  | .multiply r _ _ => r
  | .divide r _ _ => r
  | .call r _ _ => r
  | .ret r _ => r
  | .block r _ => r
  | .ifS r _ _ _ => r
  | .func r _ _ _ => r
  | .var r _ _ => r
  | .assign r _ _ => r
  | .whileS r _ _ => r
  | .module r _ => r

mutual

/-- Method `equals` of `ast.ts`, translated class by class.  The
`instanceof` test of the source is the constructor match; a mismatch of
constructors yields `false`.  Note that `Call.equals` compares the
argument lists with `arg === other.args[i]` (reference identity, modelled
by `ref` equality), unlike every other class, which recurses with
`.equals`. -/
def equals : AST → AST → Bool
  | .number _ v, .number _ v' => v == v'
  | .id _ v, .id _ v' => v == v'
  | .not _ t, .not _ t' => equals t t'
  | .equal _ l r, .equal _ l' r' => equals l l' && equals r r'
  | .notEqual _ l r, .notEqual _ l' r' => equals l l' && equals r r'
  | .add _ l r, .add _ l' r' => equals l l' && equals r r'
  | .subtract _ l r, .subtract _ l' r' => equals l l' && equals r r'
  | .multiply _ l r, .multiply _ l' r' => equals l l' && equals r r'
  | .divide _ l r, .divide _ l' r' => equals l l' && equals r r'
  | .call _ c args, .call _ c' args' =>
      c == c' && args.length == args'.length &&
        (args.zip args').all fun p => p.1.ref == p.2.ref
  | .ret _ t, .ret _ t' => equals t t'
  | .block _ ss, .block _ ss' => ss.length == ss'.length && equalsList ss ss'
  | .ifS _ c cs alt, .ifS _ c' cs' alt' =>
      equals c c' && equals cs cs' && equals alt alt'
  | .func _ n ps b, .func _ n' ps' b' =>
      n == n' && ps.length == ps'.length && ps == ps' && equals b b'
  | .var _ n v, .var _ n' v' => n == n' && equals v v'
  | .assign _ n v, .assign _ n' v' => n == n' && equals v v'
  | .whileS _ c b, .whileS _ c' b' => equals c c' && equals b b'
  | .module _ fs, .module _ fs' => fs.length == fs'.length && equalsList fs fs'
  | _, _ => false

/-- Elementwise `equals` over two lists of nodes (the `.every` calls of
`Block.equals` / `Module.equals`; they are guarded by a length check, so
only equal lengths are reached). -/
def equalsList : List AST → List AST → Bool
  | [], [] => true
  | a :: as, b :: bs => equals a b && equalsList as bs
  | _, _ => false

end

mutual

/-- Shape of a node: the node with every identity tag replaced by 0.  Two
nodes are "of identical shape and field values" exactly when their
erasures are equal. -/
def erase : AST → AST
  | .number _ v => .number 0 v
  | .id _ v => .id 0 v
  | .not _ t => .not 0 (erase t)
  | .equal _ l r => .equal 0 (erase l) (erase r)
  | .notEqual _ l r => .notEqual 0 (erase l) (erase r)
  | .add _ l r => .add 0 (erase l) (erase r)
  | .subtract _ l r => .subtract 0 (erase l) (erase r)
  | .multiply _ l r => .multiply 0 (erase l) (erase r)
  | .divide _ l r => .divide 0 (erase l) (erase r)
  | .call _ c args => .call 0 c (eraseList args)
  | .ret _ t => .ret 0 (erase t)
  | .block _ ss => .block 0 (eraseList ss)
  | .ifS _ c cs alt => .ifS 0 (erase c) (erase cs) (erase alt)
  | .func _ n ps b => .func 0 n ps (erase b)
  | .var _ n v => .var 0 n (erase v)
  | .assign _ n v => .assign 0 n (erase v)
  | .whileS _ c b => .whileS 0 (erase c) (erase b)
  | .module _ fs => .module 0 (eraseList fs)

/-- Erasure mapped over a list of nodes. -/
def eraseList : List AST → List AST
  | [] => []
  | t :: ts => erase t :: eraseList ts

end

mutual

/-- Identity tags of all nodes of a tree, in pre-order. -/
def refList : AST → List Nat
  | .number r _ => [r]
  | .id r _ => [r]
  | .not r t => r :: refList t
  | .equal r l rt => r :: (refList l ++ refList rt)
  | .notEqual r l rt => r :: (refList l ++ refList rt)
  | .add r l rt => r :: (refList l ++ refList rt)
  | .subtract r l rt => r :: (refList l ++ refList rt)
  | .multiply r l rt => r :: (refList l ++ refList rt)
  | .divide r l rt => r :: (refList l ++ refList rt)
  | .call r _ args => r :: refListList args
  | .ret r t => r :: refList t
  | .block r ss => r :: refListList ss
  | .ifS r c cs alt => r :: (refList c ++ refList cs ++ refList alt)
  | .func r _ _ b => r :: refList b
  | .var r _ v => r :: refList v
  | .assign r _ v => r :: refList v
  | .whileS r c b => r :: (refList c ++ refList b)
  | .module r fs => r :: refListList fs

/-- Identity tags of all nodes of a list of trees, in pre-order. -/
def refListList : List AST → List Nat
  | [] => []
  | t :: ts => refList t ++ refListList ts

end

mutual

/-- Checks that no `Call` node of the tree has a non-empty argument list
(these are the only places where `equals` falls back to reference
identity). -/
def callArgFree : AST → Bool
  | .number _ _ => true
  | .id _ _ => true
  | .not _ t => callArgFree t
  | .equal _ l r => callArgFree l && callArgFree r
  | .notEqual _ l r => callArgFree l && callArgFree r
  | .add _ l r => callArgFree l && callArgFree r
  | .subtract _ l r => callArgFree l && callArgFree r
  | .multiply _ l r => callArgFree l && callArgFree r
  | .divide _ l r => callArgFree l && callArgFree r
  | .call _ _ args => args.isEmpty
  | .ret _ t => callArgFree t
  | .block _ ss => callArgFreeList ss
  | .ifS _ c cs alt => callArgFree c && callArgFree cs && callArgFree alt
  | .func _ _ _ b => callArgFree b
  | .var _ _ v => callArgFree v
  | .assign _ _ v => callArgFree v
  | .whileS _ c b => callArgFree c && callArgFree b
  | .module _ fs => callArgFreeList fs

/-- List version of `callArgFree`. -/
def callArgFreeList : List AST → Bool
  | [] => true
  | t :: ts => callArgFree t && callArgFreeList ts

end

/-- Length is preserved by `eraseList`. -/
theorem eraseList_length (as : List AST) : (eraseList as).length = as.length := by
  induction as with
  | nil => simp [eraseList]
  | cons a as ih => simp [eraseList, ih]

mutual

/-- When two trees have the same shape and field values and the first
contains no `Call` node with arguments, `equals` returns `true`. -/
theorem equals_of_erase_eq (a b : AST) (h : erase a = erase b)
    (hfree : callArgFree a = true) : equals a b = true := by
  cases a with
  | number r v =>
      cases b <;> simp [erase] at h
      simp [equals, h]
  | id r v =>
      cases b <;> simp [erase] at h
      simp [equals, h]
  | not r t =>
      cases b <;> simp [erase] at h
      simp only [equals]
      exact equals_of_erase_eq _ _ h (by simpa [callArgFree] using hfree)
  | equal r l rt =>
      cases b <;> simp [erase] at h
      simp only [callArgFree, Bool.and_eq_true] at hfree
      simp only [equals, Bool.and_eq_true]
      exact ⟨equals_of_erase_eq _ _ h.1 hfree.1, equals_of_erase_eq _ _ h.2 hfree.2⟩
  | notEqual r l rt =>
      cases b <;> simp [erase] at h
      simp only [callArgFree, Bool.and_eq_true] at hfree
      simp only [equals, Bool.and_eq_true]
      exact ⟨equals_of_erase_eq _ _ h.1 hfree.1, equals_of_erase_eq _ _ h.2 hfree.2⟩
  | add r l rt =>
      cases b <;> simp [erase] at h
      simp only [callArgFree, Bool.and_eq_true] at hfree
      simp only [equals, Bool.and_eq_true]
      exact ⟨equals_of_erase_eq _ _ h.1 hfree.1, equals_of_erase_eq _ _ h.2 hfree.2⟩
  | subtract r l rt =>
      cases b <;> simp [erase] at h
      simp only [callArgFree, Bool.and_eq_true] at hfree
      simp only [equals, Bool.and_eq_true]
      exact ⟨equals_of_erase_eq _ _ h.1 hfree.1, equals_of_erase_eq _ _ h.2 hfree.2⟩
  | multiply r l rt =>
      cases b <;> simp [erase] at h
      simp only [callArgFree, Bool.and_eq_true] at hfree
      simp only [equals, Bool.and_eq_true]
      exact ⟨equals_of_erase_eq _ _ h.1 hfree.1, equals_of_erase_eq _ _ h.2 hfree.2⟩
  | divide r l rt =>
      cases b <;> simp [erase] at h
      simp only [callArgFree, Bool.and_eq_true] at hfree
      simp only [equals, Bool.and_eq_true]
      exact ⟨equals_of_erase_eq _ _ h.1 hfree.1, equals_of_erase_eq _ _ h.2 hfree.2⟩
  | call r c args =>
      cases b <;> simp [erase] at h
      rename_i r' c' args'
      simp only [callArgFree, List.isEmpty_iff] at hfree
      subst hfree
      cases args' with
      | nil => simp [equals, h.1]
      | cons x xs => simp [eraseList] at h
  | ret r t =>
      cases b <;> simp [erase] at h
      simp only [equals]
      exact equals_of_erase_eq _ _ h (by simpa [callArgFree] using hfree)
  | block r ss =>
      cases b <;> simp [erase] at h
      rename_i r' ss'
      have hlen : ss.length = ss'.length := by
        have := congrArg List.length h
        rwa [eraseList_length, eraseList_length] at this
      simp [equals, hlen]
      exact equalsList_of_erase_eq _ _ h (by simpa [callArgFree] using hfree)
  | ifS r c cs alt =>
      cases b <;> simp [erase] at h
      simp only [callArgFree, Bool.and_eq_true] at hfree
      simp only [equals, Bool.and_eq_true]
      exact ⟨⟨equals_of_erase_eq _ _ h.1 hfree.1.1,
        equals_of_erase_eq _ _ h.2.1 hfree.1.2⟩,
        equals_of_erase_eq _ _ h.2.2 hfree.2⟩
  | func r n ps bo =>
      cases b <;> simp [erase] at h
      simp [equals, h.1, h.2.1]
      exact equals_of_erase_eq _ _ h.2.2 (by simpa [callArgFree] using hfree)
  | var r n v =>
      cases b <;> simp [erase] at h
      simp [equals, h.1]
      exact equals_of_erase_eq _ _ h.2 (by simpa [callArgFree] using hfree)
  | assign r n v =>
      cases b <;> simp [erase] at h
      simp [equals, h.1]
      exact equals_of_erase_eq _ _ h.2 (by simpa [callArgFree] using hfree)
  | whileS r c bo =>
      cases b <;> simp [erase] at h
      simp only [callArgFree, Bool.and_eq_true] at hfree
      simp only [equals, Bool.and_eq_true]
      exact ⟨equals_of_erase_eq _ _ h.1 hfree.1, equals_of_erase_eq _ _ h.2 hfree.2⟩
  | module r fs =>
      cases b <;> simp [erase] at h
      rename_i r' fs'
      have hlen : fs.length = fs'.length := by
        have := congrArg List.length h
        rwa [eraseList_length, eraseList_length] at this
      simp [equals, hlen]
      exact equalsList_of_erase_eq _ _ h (by simpa [callArgFree] using hfree)

/-- List version of `equals_of_erase_eq`. -/
theorem equalsList_of_erase_eq (as bs : List AST) (h : eraseList as = eraseList bs)
    (hfree : callArgFreeList as = true) : equalsList as bs = true := by
  cases as with
  | nil =>
      cases bs with
      | nil => simp [equalsList]
      | cons b bs => simp [eraseList] at h
  | cons a as =>
      cases bs with
      | nil => simp [eraseList] at h
      | cons b bs =>
          simp only [eraseList, List.cons.injEq] at h
          simp only [callArgFreeList, Bool.and_eq_true] at hfree
          simp only [equalsList, Bool.and_eq_true]
          exact ⟨equals_of_erase_eq _ _ h.1 hfree.1,
            equalsList_of_erase_eq _ _ h.2 hfree.2⟩

end

/-- First tree of the C1 counterexample: `new Call("f", [new Number(7)])`
with identity tags 0 and 1. -/
def c1Left : AST := .call 0 "f" [.number 1 7]

/-- Second tree of the C1 counterexample: an independently constructed
`new Call("f", [new Number(7)])` with fresh identity tags 2 and 3. -/
def c1Right : AST := .call 2 "f" [.number 3 7]

/-- C1, counterexample: the two `Call` trees above are independently
constructed (no shared identity tags) and have identical shape and field
values, yet `equals` returns `false`, because `Call.equals` compares its
argument lists by reference identity (`arg === other.args[i]`) instead of
structurally. -/
theorem c1_call_equals_refutes :
    erase c1Left = erase c1Right ∧
      (∀ r ∈ refList c1Left, r ∉ refList c1Right) ∧
      equals c1Left c1Right = false := by
  refine ⟨?_, ?_, ?_⟩
  · simp [c1Left, c1Right, erase, eraseList]
  · simp [c1Left, c1Right, refList, refListList]
  · simp [c1Left, c1Right, equals, AST.ref]

/-- C1, amended: `equals` implements deep structural equality on every
node kind except `Call`, whose argument lists are compared by reference
identity.  Hence for two trees of identical shape and field values that
contain no `Call` node with a non-empty argument list, `equals` returns
`true`. -/
theorem c1_equals_deep_structural (a b : AST)
    (h : erase a = erase b) (hfree : callArgFree a = true) :
    equals a b = true :=
  equals_of_erase_eq a b h hfree

/-- Witness for `c1_equals_deep_structural`: two independently built
trees (`if (1 == 1) { return f(); } else { return 2; }` shapes) with
distinct identity tags satisfy the hypotheses, and `equals` holds. -/
theorem c1_equals_deep_structural_witness :
    erase (AST.ifS 0 (AST.equal 1 (AST.number 2 1) (AST.number 3 1))
        (AST.ret 4 (AST.call 5 "f" [])) (AST.ret 6 (AST.number 7 2)))
      = erase (AST.ifS 10 (AST.equal 11 (AST.number 12 1) (AST.number 13 1))
        (AST.ret 14 (AST.call 15 "f" [])) (AST.ret 16 (AST.number 17 2))) ∧
    callArgFree (AST.ifS 0 (AST.equal 1 (AST.number 2 1) (AST.number 3 1))
        (AST.ret 4 (AST.call 5 "f" [])) (AST.ret 6 (AST.number 7 2))) = true ∧
    equals (AST.ifS 0 (AST.equal 1 (AST.number 2 1) (AST.number 3 1))
        (AST.ret 4 (AST.call 5 "f" [])) (AST.ret 6 (AST.number 7 2)))
      (AST.ifS 10 (AST.equal 11 (AST.number 12 1) (AST.number 13 1))
        (AST.ret 14 (AST.call 15 "f" [])) (AST.ret 16 (AST.number 17 2))) = true := by
  refine ⟨?_, ?_, ?_⟩
  · simp [erase, eraseList]
  · simp [callArgFree, callArgFreeList]
  · exact c1_equals_deep_structural _ _ (by simp [erase, eraseList])
      (by simp [callArgFree, callArgFreeList])

/-- State of the assembly `CodeGenerator` of `codegen.ts`: the private
fields of the class (`locals`, `nextLocalOffset`, `exitLabel`, all private), the
static `Label` counter, and the lines emitted so far (most recent
first). -/
structure CGState where
  locals : Option (List (String × Int))
  nextLocalOffset : Int
  exitLabel : Option Nat
  labelCounter : Nat
  output : List String
deriving Repr, DecidableEq

/-- Initial generator state: `locals` and `exitLabel` are undefined,
`nextLocalOffset` is 0, no label allocated, nothing emitted. -/
def initCGState : CGState := ⟨none, 0, none, 0, []⟩

/-- Effect of `emit(line)`: append one line to the output stream. -/
def emitLine (line : String) (st : CGState) : CGState :=
  { st with output := line :: st.output }

/-- Effect of `new Label()`: return the current counter value and bump
it. -/
def newLabel (st : CGState) : Nat × CGState :=
  (st.labelCounter, { st with labelCounter := st.labelCounter + 1 })

/-- Rendering `Label.toString()`. -/
def labelName (n : Nat) : String := s!".L{n}"

/-- Rendering of the private exitLabel field inside a template string; an undefined
label stringifies to "undefined" in JavaScript. -/
def exitLabelName : Option Nat → String
  | some n => labelName n
  | none => "undefined"

/-- Method `setupEnvironment` of `codegen.ts`: assign each parameter the
offset `8 * i - 32`, reset `#nextLocalOffset` to −40 and allocate the
function's exit label.  Later `Map.set` entries shadow earlier ones, which
the association list models by prepending. -/
def setupEnvironmentC (params : List String) (st : CGState) : CGState :=
  let locals := params.enum.foldl (fun m p => (p.2, 8 * (p.1 : Int) - 32) :: m) []
  let (lbl, st) := newLabel st
  { st with locals := some locals, nextLocalOffset := -40, exitLabel := some lbl }

/-- Directive/label lines emitted by `visitFunction` before the
prologue. -/
def functionHeaderC (name : String) (st : CGState) : CGState :=
  let st := emitLine ("\t.globl\t_" ++ name) st
  let st := emitLine "\t.p2align\t2" st
  emitLine ("_" ++ name ++ ":") st

/-- Method `emitPrologue` of `codegen.ts`. -/
def emitPrologueC (st : CGState) : CGState :=
  let st := emitLine "\tstp\tx29, x30, [sp, #-16]!" st
  let st := emitLine "\tmov\tx29, sp" st
  let st := emitLine "\tstp\tx2, x3, [sp, #-16]!" st
  emitLine "\tstp\tx0, x1, [sp, #-16]!" st

/-- Method `emitEpilogue` of `codegen.ts`. -/
def emitEpilogueC (st : CGState) : CGState :=
  let st := emitLine "\tmov\tx0, #0" st
  let st := emitLine (exitLabelName st.exitLabel ++ ":") st
  let st := emitLine "\tmov\tsp, x29" st
  let st := emitLine "\tldp\tx29, x30, [sp], #16" st
  emitLine "\tret" st

/-- Method `teardownEnvironment` of `codegen.ts`. -/
def teardownEnvironmentC (st : CGState) : CGState :=
  { st with locals := none, nextLocalOffset := 0, exitLabel := none }

mutual

/-- The `visit*` methods of the assembly `CodeGenerator` (`codegen.ts`),
dispatched on the node constructor.  `prepareBinaryOp` is inlined at its
six call sites.  Accessing a member of the undefined `#locals` map throws
a `TypeError` in JavaScript, modelled as `.error "TypeError"`; the
`if (offset)` truthiness test of `visitId`/`visitAssign` treats both a
missing entry and the value 0 as "undefined variable". -/
def visitC : AST → CGState → Except String CGState
  | .number _ v, st => .ok (emitLine s!"\tldr\tx0, ={v}" st)
  | .id _ x, st =>
      match st.locals with
      | none => .error "TypeError"
      | some locals =>
          match List.lookup x locals with
          | some offset =>
              if offset = 0 then .error ("Undefined variable: " ++ x)
              else .ok (emitLine s!"\tldr\tx0, [x29, #{offset}]" st)
          | none => .error ("Undefined variable: " ++ x)
  | .not _ t, st => do
      let st ← visitC t st
      let st := emitLine "\tcmp\tx0, #1" st
      .ok (emitLine "\tcset\tx0, ne" st)
  | .equal _ l r, st => do
      let st ← visitC l st
      let st := emitLine "\tstr\tx0, [sp, #-16]!" st
      let st ← visitC r st
      let st := emitLine "\tldr\tx1, [sp], #16" st
      let st := emitLine "\tcmp\tx1, x0" st
      .ok (emitLine "\tcset\tx0, eq" st)
  | .notEqual _ l r, st => do
      let st ← visitC l st
      let st := emitLine "\tstr\tx0, [sp, #-16]!" st
      let st ← visitC r st
      let st := emitLine "\tldr\tx1, [sp], #16" st
      let st := emitLine "\tcmp\tx1, x0" st
      .ok (emitLine "\tcset\tx0, ne" st)
  | .add _ l r, st => do
      let st ← visitC l st
      let st := emitLine "\tstr\tx0, [sp, #-16]!" st
      let st ← visitC r st
      let st := emitLine "\tldr\tx1, [sp], #16" st
      .ok (emitLine "\tadd\tx0, x1, x0" st)
  | .subtract _ l r, st => do
      let st ← visitC l st
      let st := emitLine "\tstr\tx0, [sp, #-16]!" st
      let st ← visitC r st
      let st := emitLine "\tldr\tx1, [sp], #16" st
      .ok (emitLine "\tsub\tx0, x1, x0" st)
  | .multiply _ l r, st => do
      let st ← visitC l st
      let st := emitLine "\tstr\tx0, [sp, #-16]!" st
      let st ← visitC r st
      let st := emitLine "\tldr\tx1, [sp], #16" st
      .ok (emitLine "\tmul\tx0, x1, x0" st)
  | .divide _ l r, st => do
      let st ← visitC l st
      let st := emitLine "\tstr\tx0, [sp, #-16]!" st
      let st ← visitC r st
      let st := emitLine "\tldr\tx1, [sp], #16" st
      .ok (emitLine "\tdiv\tx0, x1, x0" st)
  | .call _ callee args, st => do
      let st ←
        if args.length > 1 then do
          let st := emitLine "\tsub\tsp, sp, #32" st
          let st ← visitCallArgsC args 0 st
          let st := emitLine "\tldp\tx0, x1, [sp], #16" st
          pure (emitLine "\tldp\tx2, x3, [sp], #16" st)
        else
          -- Don't use stack for functions with less than 2 arguments.
          visitCListC args st
      .ok (emitLine ("\tbl\t_" ++ callee) st)
  | .ret _ t, st => do
      let st ← visitC t st
      .ok (emitLine ("\tb\t" ++ exitLabelName st.exitLabel) st)
  | .block _ ss, st => visitCListC ss st
  | .ifS _ c cs alt, st => do
      let (ifFalseLabel, st) := newLabel st
      let (endIfLabel, st) := newLabel st
      let st ← visitC c st
      let st := emitLine "\tcmp\tx0, #1" st
      let st := emitLine ("\tbne\t" ++ labelName ifFalseLabel) st
      let st ← visitC cs st
      let st := emitLine ("\tb\t" ++ labelName endIfLabel) st
      let st := emitLine (labelName ifFalseLabel ++ ":") st
      let st ← visitC alt st
      .ok (emitLine (labelName endIfLabel ++ ":") st)
  | .func _ name params body, st =>
      if params.length > 4 then .error "More than 4 params is not supported"
      else do
        let st := setupEnvironmentC params st
        let st := functionHeaderC name st
        let st := emitPrologueC st
        let st ← visitC body st
        let st := emitEpilogueC st
        .ok (teardownEnvironmentC st)
  | .var _ name value, st => do
      let st ← visitC value st
      let st := emitLine "\tstr\tx0, [sp, #-16]!" st
      match st.locals with
      | none => .error "TypeError"
      | some locals =>
          .ok { st with
                locals := some ((name, st.nextLocalOffset - 8) :: locals)
                nextLocalOffset := st.nextLocalOffset - 16 }
  | .assign _ name value, st => do
      let st ← visitC value st
      match st.locals with
      | none => .error "TypeError"
      | some locals =>
          match List.lookup name locals with
          | some offset =>
              if offset = 0 then .error ("Undefined variable: " ++ name)
              else .ok (emitLine s!"\tstr\tx0, [x29, #{offset}]" st)
          | none => .error ("Undefined variable: " ++ name)
  | .whileS _ c b, st => do
      let (startLoopLabel, st) := newLabel st
      let (endLoopLabel, st) := newLabel st
      let st := emitLine (labelName startLoopLabel ++ ":") st
      let st ← visitC c st
      let st := emitLine "\tcmp\tx0, #1" st
      let st := emitLine ("\tbne\t" ++ labelName endLoopLabel) st
      let st ← visitC b st
      let st := emitLine ("\tb\t" ++ labelName startLoopLabel) st
      .ok (emitLine (labelName endLoopLabel ++ ":") st)
  | .module _ fs, st =>
      let st := emitLine "\t.section\t__TEXT,__text,regular,pure_instructions" st
      visitModuleFuncsC fs st

/-- The `forEach` of `visitCall`'s many-argument branch: visit each
argument and spill the accumulator to `[sp, #8*i]`. -/
def visitCallArgsC : List AST → Nat → CGState → Except String CGState
  | [], _, st => .ok st
  | a :: as, i, st => do
      let st ← visitC a st
      let st := emitLine s!"\tstr\tx0, [sp, #{8 * i}]" st
      visitCallArgsC as (i + 1) st

/-- Plain sequential visiting of a node list (`visitBlock`, the
few-argument branch of `visitCall`). -/
def visitCListC : List AST → CGState → Except String CGState
  | [], st => .ok st
  | a :: as, st => do
      let st ← visitC a st
      visitCListC as st

/-- The `forEach` of `visitModule`: a blank line, then the function. -/
def visitModuleFuncsC : List AST → CGState → Except String CGState
  | [], st => .ok st
  | f :: fs, st => do
      let st := emitLine "" st
      let st ← visitC f st
      visitModuleFuncsC fs st

end

/-- Call node `f(1, 2, 3, 4, 5)` with five arguments. -/
def c4Call : AST := .call 0 "f" [.number 1 1, .number 2 2, .number 3 3, .number 4 4, .number 5 5]

/-- C4: `visitCall` performs no arity check.  Generating code for the
five-argument call `f(1, 2, 3, 4, 5)` succeeds instead of raising the
"unsupported arity" error the specification requires: the emitted code
reserves 32 bytes, stores the fifth argument out of range at
`[sp, #32]`, and loads only `x0`–`x3` before `bl _f`, so the fifth
argument is silently passed incorrectly. -/
theorem c4_call_arity_unchecked :
    visitC c4Call initCGState = .ok ⟨none, 0, none, 0,
      ["\tbl\t_f", "\tldp\tx2, x3, [sp], #16", "\tldp\tx0, x1, [sp], #16",
       "\tstr\tx0, [sp, #32]", "\tldr\tx0, =5", "\tstr\tx0, [sp, #24]", "\tldr\tx0, =4",
       "\tstr\tx0, [sp, #16]", "\tldr\tx0, =3", "\tstr\tx0, [sp, #8]", "\tldr\tx0, =2",
       "\tstr\tx0, [sp, #0]", "\tldr\tx0, =1", "\tsub\tsp, sp, #32"]⟩ := rfl

/-- C5: `visitFunction` compiles a function with at most 4 parameters
(whenever its body generates successfully) and fails with the fatal
arity error "More than 4 params is not supported" as soon as the
function has 5 or more parameters. -/
theorem c5_function_arity (r : Nat) (name : String) (params : List String)
    (body : AST) (st : CGState) :
    (4 < params.length →
      visitC (.func r name params body) st = .error "More than 4 params is not supported") ∧
    (params.length ≤ 4 →
      ∀ st', visitC body (emitPrologueC (functionHeaderC name (setupEnvironmentC params st))) = .ok st' →
        visitC (.func r name params body) st = .ok (teardownEnvironmentC (emitEpilogueC st'))) := by
  constructor
  · intro h
    simp only [visitC]
    rw [if_pos h]
  · intro hle st' hbody
    simp only [visitC]
    rw [if_neg (by omega)]
    simp only [hbody]
    rfl

/-- Witness for `c5_function_arity`: a function with five parameters is
rejected with the arity error, while a function with exactly four
parameters and an empty body compiles. -/
theorem c5_function_arity_witness :
    visitC (AST.func 0 "g" ["a", "b", "c", "d", "e"] (AST.block 1 [])) initCGState
        = .error "More than 4 params is not supported" ∧
      visitC (AST.func 0 "h" ["a", "b", "c", "d"] (AST.block 1 [])) initCGState
        = .ok (teardownEnvironmentC (emitEpilogueC
            (emitPrologueC (functionHeaderC "h"
              (setupEnvironmentC ["a", "b", "c", "d"] initCGState))))) :=
  ⟨(c5_function_arity 0 "g" ["a", "b", "c", "d", "e"] (AST.block 1 []) initCGState).1
      (by decide),
    (c5_function_arity 0 "h" ["a", "b", "c", "d"] (AST.block 1 []) initCGState).2
      (by decide) _ rfl⟩

/-- Class `FunctionFrame` of the frame-analysis module: the node-identity
keyed slot map `idMap`, the private flat name table `#nameMap`, and the
slot count `frameSize`.  `Map.set` prepends; `get`/`has` take the first
matching entry. -/
structure FunctionFrame where
  idMap : List (Nat × Nat)
  nameMap : List (String × Nat)
  frameSize : Nat
deriving Repr, DecidableEq

/-- Freshly constructed `new FunctionFrame()`. -/
def emptyFrame : FunctionFrame := ⟨[], [], 0⟩

/-- Method `addArgument`: fail on a duplicate parameter name, otherwise
give the parameter the next slot (`this.frameSize++`). -/
def FunctionFrame.addArgument (f : FunctionFrame) (name : String) :
    Except String FunctionFrame :=
  if (List.lookup name f.nameMap).isSome then
    .error ("Duplicate definition of argument " ++ name)
  else
    .ok { f with frameSize := f.frameSize + 1, nameMap := (name, f.frameSize) :: f.nameMap }

/-- Method `addLocal`: allocate the next slot for a `Var` node,
overwriting the flat name binding and recording the node's slot in
`idMap`. -/
def FunctionFrame.addLocal (f : FunctionFrame) (r : Nat) (name : String) : FunctionFrame :=
  { idMap := (r, f.frameSize) :: f.idMap
    nameMap := (name, f.frameSize) :: f.nameMap
    frameSize := f.frameSize + 1 }

/-- Method `mapLocal`: resolve an `Id`/`Assign` node against the current
flat name table (the caller passes `v.value` for an `Id` and `v.name` for
an `Assign`); an unbound name is the fatal "Undefined variable" error. -/
def FunctionFrame.mapLocal (f : FunctionFrame) (r : Nat) (name : String) :
    Except String FunctionFrame :=
  match List.lookup name f.nameMap with
  | none => .error ("Undefined variable " ++ name)
  | some slot => .ok { f with idMap := (r, slot) :: f.idMap }

/-- Method `getOffset`: the slot recorded for a node identity, if any. -/
def FunctionFrame.getOffset (f : FunctionFrame) (r : Nat) : Option Nat :=
  List.lookup r f.idMap

mutual

/-- Callee names of all `Call` nodes of a tree. -/
def calleeList : AST → List String
  | .number _ _ => []
  | .id _ _ => []
  | .not _ t => calleeList t
  | .equal _ l r => calleeList l ++ calleeList r
  | .notEqual _ l r => calleeList l ++ calleeList r
  | .add _ l r => calleeList l ++ calleeList r
  | .subtract _ l r => calleeList l ++ calleeList r
  | .multiply _ l r => calleeList l ++ calleeList r
  | .divide _ l r => calleeList l ++ calleeList r
  | .call _ c args => c :: calleeListList args
  | .ret _ t => calleeList t
  | .block _ ss => calleeListList ss
  | .ifS _ c cs alt => calleeList c ++ calleeList cs ++ calleeList alt
  | .func _ _ _ b => calleeList b
  | .var _ _ v => calleeList v
  | .assign _ _ v => calleeList v
  | .whileS _ c b => calleeList c ++ calleeList b
  | .module _ fs => calleeListList fs

/-- Callee names collected over a list of trees. -/
def calleeListList : List AST → List String
  | [] => []
  | t :: ts => calleeList t ++ calleeListList ts

end

/-- State of `MlirCodegen` (`mlir.sh`): the static `Value` and `Label`
counters, the private `#currentFrame`/`#frameVars` fields and the lines
emitted so far (most recent first).  SSA values and block labels are
represented by their printed strings; the `undefined` value stringifies
to "undefined" as in JavaScript. -/
structure MlirState where
  valueCounter : Nat
  labelCounter : Nat
  currentFrame : Option FunctionFrame
  frameVars : Option (List String)
  output : List String
deriving Repr, DecidableEq

/-- Initial `MlirCodegen` state: counters at zero, no current frame. -/
def mlirInitState : MlirState := ⟨0, 0, none, none, []⟩

/-- Effect of `emit(line)` in `mlir.sh`. -/
def mlirEmit (line : String) (st : MlirState) : MlirState :=
  { st with output := line :: st.output }

/-- Effect of `new Value()`: the printed name `%n` and the bumped
counter. -/
def newValue (st : MlirState) : String × MlirState :=
  (s!"%{st.valueCounter}", { st with valueCounter := st.valueCounter + 1 })

/-- Effect of `new Label()` in `mlir.sh`: the printed name `^bbn` and the
bumped counter. -/
def newMlirLabel (st : MlirState) : String × MlirState :=
  (s!"^bb{st.labelCounter}", { st with labelCounter := st.labelCounter + 1 })

/-- Stringification of a `Value | undefined` result inside a template
string. -/
def valStr : Option String → String
  | some v => v
  | none => "undefined"

/-- Method `#emitLabel`. -/
def mlirEmitLabel (label : String) (st : MlirState) : MlirState :=
  mlirEmit ("  " ++ label ++ ":") st

/-- Method `#emitBr`. -/
def mlirEmitBr (jumpLabel nextLabel : String) (st : MlirState) : MlirState :=
  mlirEmitLabel nextLabel (mlirEmit ("    cf.br " ++ jumpLabel) st)

/-- Method `#loadNumber`. -/
def mlirLoadNumber (n : Int) (st : MlirState) : String × MlirState :=
  let (v, st) := newValue st
  (v, mlirEmit ("    " ++ v ++ s!" = arith.constant {n} : i64") st)

/-- The `for` loop of `visitFunction` allocating one `memref.alloca`
cell per frame slot; returns the collected `frameVars`. -/
def allocFrameVars : Nat → MlirState → MlirState × List String
  | 0, st => (st, [])
  | n + 1, st =>
      let (v, st) := newValue st
      let st := mlirEmit ("    " ++ v ++ " = memref.alloca() : memref<i64>") st
      let (st, vs) := allocFrameVars n st
      (st, v :: vs)

/-- The `forEach` of `visitFunction` storing each incoming parameter into
its frame cell (`frameVars[i]` yields "undefined" past the end, as
JavaScript array indexing does). -/
def storeParams (params : List String) (frameVars : List String) (i : Nat)
    (st : MlirState) : MlirState :=
  match params with
  | [] => st
  | p :: ps =>
      let cell := frameVars.getD i "undefined"
      let st := mlirEmit ("    memref.store %" ++ p ++ ", " ++ cell ++ "[] : memref<i64>") st
      storeParams ps frameVars (i + 1) st

mutual

/-- The `visit*` methods of `MlirCodegen` (`mlir.sh`), dispatched on the
node constructor; `frames` is the constructor argument `frameInfos`.
Returns the `Value | undefined` result of the visit.  Accessing a member
of an undefined `#currentFrame`/`#frameVars`/`frameInfos.get(...)` is the
JavaScript `TypeError`, while an undefined slot offset merely indexes the
`frameVars` array out of range and stringifies to "undefined". -/
def visitM (frames : List (String × Option FunctionFrame)) :
    AST → MlirState → Except String (MlirState × Option String)
  | .number _ v, st =>
      let (v, st) := mlirLoadNumber v st
      .ok (st, some v)
  | .id r _, st =>
      match st.currentFrame with
      | none => .error "TypeError"
      | some f =>
          match st.frameVars with
          | none => .error "TypeError"
          | some vars =>
              let cell := match f.getOffset r with
                | some o => vars.getD o "undefined"
                | none => "undefined"
              let (v, st) := newValue st
              .ok (mlirEmit ("    " ++ v ++ " = memref.load " ++ cell ++ "[] : memref<i64>") st,
                some v)
  | .not _ t, st => do
      let (st, term) ← visitM frames t st
      let (zero, st) := mlirLoadNumber 0 st
      let (one, st) := mlirLoadNumber 1 st
      let (cond, st) := newValue st
      let (v, st) := newValue st
      let st := mlirEmit ("    " ++ cond ++ " = arith.cmpi eq, " ++ valStr term ++ ", " ++ one ++ " : i64") st
      let st := mlirEmit ("    " ++ v ++ " = arith.select " ++ cond ++ ", " ++ zero ++ ", " ++ one ++ " : i64") st
      .ok (st, some v)
  | .equal _ l rh, st => do
      let (st, left) ← visitM frames l st
      let (st, right) ← visitM frames rh st
      let (zero, st) := mlirLoadNumber 0 st
      let (one, st) := mlirLoadNumber 1 st
      let (cond, st) := newValue st
      let (v, st) := newValue st
      let st := mlirEmit ("    " ++ cond ++ " = arith.cmpi eq, " ++ valStr left ++ ", " ++ valStr right ++ " : i64") st
      let st := mlirEmit ("    " ++ v ++ " = arith.select " ++ cond ++ ", " ++ one ++ ", " ++ zero ++ " : i64") st
      .ok (st, some v)
  | .notEqual _ l rh, st => do
      let (st, left) ← visitM frames l st
      let (st, right) ← visitM frames rh st
      let (zero, st) := mlirLoadNumber 0 st
      let (one, st) := mlirLoadNumber 1 st
      let (cond, st) := newValue st
      let (v, st) := newValue st
      let st := mlirEmit ("    " ++ cond ++ " = arith.cmpi ne, " ++ valStr left ++ ", " ++ valStr right ++ " : i64") st
      let st := mlirEmit ("    " ++ v ++ " = arith.select " ++ cond ++ ", " ++ one ++ ", " ++ zero ++ " : i64") st
      .ok (st, some v)
  | .add _ l rh, st => do
      let (st, left) ← visitM frames l st
      let (st, right) ← visitM frames rh st
      let (v, st) := newValue st
      let st := mlirEmit ("    " ++ v ++ " = arith.addi " ++ valStr left ++ ", " ++ valStr right ++ " : i64") st
      .ok (st, some v)
  | .subtract _ l rh, st => do
      let (st, left) ← visitM frames l st
      let (st, right) ← visitM frames rh st
      let (v, st) := newValue st
      let st := mlirEmit ("    " ++ v ++ " = arith.subi " ++ valStr left ++ ", " ++ valStr right ++ " : i64") st
      .ok (st, some v)
  | .multiply _ l rh, st => do
      let (st, left) ← visitM frames l st
      let (st, right) ← visitM frames rh st
      let (v, st) := newValue st
      let st := mlirEmit ("    " ++ v ++ " = arith.muli " ++ valStr left ++ ", " ++ valStr right ++ " : i64") st
      .ok (st, some v)
  | .divide _ l rh, st => do
      let (st, left) ← visitM frames l st
      let (st, right) ← visitM frames rh st
      let (v, st) := newValue st
      let st := mlirEmit ("    " ++ v ++ " = arith.divsi " ++ valStr left ++ ", " ++ valStr right ++ " : i64") st
      .ok (st, some v)
  | .call _ callee args, st => do
      let (st, argVals) ← visitMArgs frames args st
      let argStr := String.intercalate ", " argVals
      let typeStr := String.intercalate ", " (List.replicate args.length "i64")
      let (v, st) := newValue st
      let st := mlirEmit ("    " ++ v ++ " = call @" ++ callee ++ "(" ++ argStr ++ ") : (" ++ typeStr ++ ") -> i64") st
      .ok (st, some v)
  | .ret _ t, st => do
      let (st, term) ← visitM frames t st
      let st := mlirEmit ("    return " ++ valStr term ++ " : i64") st
      let (wasteLabel, st) := newMlirLabel st
      .ok (mlirEmitLabel wasteLabel st, none)
  | .block _ ss, st => do
      let st ← visitMList frames ss st
      .ok (st, none)
  | .ifS _ c cs alt, st => do
      let (st, conditional) ← visitM frames c st
      let (ifTrueLabel, st) := newMlirLabel st
      let (ifFalseLabel, st) := newMlirLabel st
      let (endIfLabel, st) := newMlirLabel st
      let st := mlirEmit ("    cf.switch " ++ valStr conditional ++ " : i64, [") st
      let st := mlirEmit ("      default: " ++ ifFalseLabel ++ ",") st
      let st := mlirEmit ("      1: " ++ ifTrueLabel) st
      let st := mlirEmit "    ]" st
      let st := mlirEmitLabel ifTrueLabel st
      let (st, _) ← visitM frames cs st
      let st := mlirEmitBr endIfLabel ifFalseLabel st
      let (st, _) ← visitM frames alt st
      .ok (mlirEmitBr endIfLabel endIfLabel st, none)
  | .func _ name params body, st => do
      let argStr := String.intercalate ", " (params.map fun p => "%" ++ p ++ " : i64")
      let st := mlirEmit ("  func.func @" ++ name ++ "(" ++ argStr ++ ") -> i64 \x7b") st
      match List.lookup name frames with
      | none => .error "TypeError"
      | some none => .error "TypeError"
      | some (some currentFrame) =>
          let (st, frameVars) := allocFrameVars currentFrame.frameSize st
          let st := storeParams params frameVars 0 st
          let st := { st with currentFrame := some currentFrame, frameVars := some frameVars }
          let (st, _) ← visitM frames body st
          let st := { st with currentFrame := none, frameVars := none }
          let (zero, st) := mlirLoadNumber 0 st
          let st := mlirEmit ("    return " ++ zero ++ " : i64") st
          .ok (mlirEmit "  \x7d" st, none)
  | .var r _ value, st => do
      let (st, value) ← visitM frames value st
      match st.currentFrame with
      | none => .error "TypeError"
      | some f =>
          match st.frameVars with
          | none => .error "TypeError"
          | some vars =>
              let cell := match f.getOffset r with
                | some o => vars.getD o "undefined"
                | none => "undefined"
              .ok (mlirEmit ("    memref.store " ++ valStr value ++ ", " ++ cell ++ "[] : memref<i64>") st, none)
  | .assign r _ value, st => do
      let (st, value) ← visitM frames value st
      match st.currentFrame with
      | none => .error "TypeError"
      | some f =>
          match st.frameVars with
          | none => .error "TypeError"
          | some vars =>
              let cell := match f.getOffset r with
                | some o => vars.getD o "undefined"
                | none => "undefined"
              .ok (mlirEmit ("    memref.store " ++ valStr value ++ ", " ++ cell ++ "[] : memref<i64>") st, none)
  | .whileS _ c b, st => do
      let (loopStartLabel, st) := newMlirLabel st
      let (loopBodyLabel, st) := newMlirLabel st
      let (loopEndLabel, st) := newMlirLabel st
      let st := mlirEmitBr loopStartLabel loopStartLabel st
      let (st, conditional) ← visitM frames c st
      let st := mlirEmit ("    cf.switch " ++ valStr conditional ++ " : i64, [") st
      let st := mlirEmit ("      default: " ++ loopEndLabel ++ ",") st
      let st := mlirEmit ("      1: " ++ loopBodyLabel) st
      let st := mlirEmit "    ]" st
      let st := mlirEmitLabel loopBodyLabel st
      let (st, _) ← visitM frames b st
      .ok (mlirEmitBr loopStartLabel loopEndLabel st, none)
  | .module _ fs, st => do
      let st := mlirEmit "module \x7b" st
      let st ← visitMList frames fs st
      let st := mlirEmit "  func.func private @print(i64) -> i64" st
      .ok (mlirEmit "\x7d" st, none)

/-- The `forEach` visits of `visitBlock`/`visitModule` (results
discarded). -/
def visitMList (frames : List (String × Option FunctionFrame)) :
    List AST → MlirState → Except String MlirState
  | [], st => .ok st
  | t :: ts, st => do
      let (st, _) ← visitM frames t st
      visitMList frames ts st

/-- The `map` of `visitCall` collecting each argument's value string. -/
def visitMArgs (frames : List (String × Option FunctionFrame)) :
    List AST → MlirState → Except String (MlirState × List String)
  | [], st => .ok (st, [])
  | t :: ts, st => do
      let (st, v) ← visitM frames t st
      let (st, vs) ← visitMArgs frames ts st
      .ok (st, valStr v :: vs)

end

/-- The external declaration line unconditionally emitted at the end of
`MlirCodegen.visitModule`. -/
def printDeclLine : String := "  func.func private @print(i64) -> i64"

/-- A module whose single function calls the undefined function `foo`. -/
def c6FooModule : AST :=
  .module 0 [.func 1 "main" [] (.block 2 [.call 3 "foo" [.number 4 7]])]

/-- C6, counterexample: both directions of the claim fail.  The empty
module calls no function at all, yet the structured-IR output still ends
with the external declaration of the `print` intrinsic — `visitModule`
emits that line unconditionally.  Conversely, a module calling the
undefined function `foo` gets no declaration for `foo`: no line of its
output begins with the private-declaration header for `foo`. -/
theorem c6_print_decl_refutes :
    (calleeList (AST.module 0 []) = [] ∧
      visitM [] (AST.module 0 []) mlirInitState =
        .ok (⟨0, 0, none, none, ["\x7d", printDeclLine, "module \x7b"]⟩, none)) ∧
    (calleeList c6FooModule = ["foo"] ∧
      visitM [("main", some emptyFrame)] c6FooModule mlirInitState =
        .ok (⟨3, 0, none, none,
          ["\x7d", printDeclLine, "  \x7d", "    return %2 : i64",
           "    %2 = arith.constant 0 : i64", "    %1 = call @foo(%0) : (i64) -> i64",
           "    %0 = arith.constant 7 : i64", "  func.func @main() -> i64 \x7b",
           "module \x7b"]⟩, none) ∧
      (["\x7d", printDeclLine, "  \x7d", "    return %2 : i64",
        "    %2 = arith.constant 0 : i64", "    %1 = call @foo(%0) : (i64) -> i64",
        "    %0 = arith.constant 7 : i64", "  func.func @main() -> i64 \x7b",
        "module \x7b"].all fun l =>
          !("  func.func private @foo".data.isPrefixOf l.data)) = true) :=
  ⟨⟨rfl, rfl⟩, rfl, rfl, rfl⟩

/-- Unfolding of the `visitModule` case of `MlirCodegen`. -/
theorem visitM_module (frames : List (String × Option FunctionFrame)) (r : Nat)
    (fs : List AST) (st : MlirState) :
    visitM frames (.module r fs) st =
      (visitMList frames fs (mlirEmit "module \x7b" st)).bind
        (fun st₁ => .ok (mlirEmit "\x7d" (mlirEmit printDeclLine st₁), none)) := rfl

/-- Class `Source` of `parser.ts`: an immutable cursor into the input
string. -/
structure Source where
  string : String
  index : Nat
deriving Repr, DecidableEq

/-- Class `ParseResult` of `parser.ts`. -/
structure ParseResult (α : Type) where
  value : α
  source : Source

/-- A parser is the pure function carried by class `Parser`:
`(source: Source) => ParseResult<T> | null`.  The `Parser.error`
combinator (which throws when invoked) exists in the source only as the
forward-reference placeholder whose `parse` field is patched with the
real rule before any input is parsed; Lean's native recursion replaces
that declare-then-patch idiom, so the placeholder is not modelled. -/
def ParserFn (α : Type) : Type := Source → Option (ParseResult α)

/-- Method `Source.match`: the regular expression is embedded as a
matcher function returning the substring matched at the given index; on
success the cursor advances by the length of the match. -/
def sourceMatch (m : String → Nat → Option String) (s : Source) :
    Option (ParseResult String) :=
  match m s.string s.index with
  | some value => some ⟨value, ⟨s.string, s.index + value.length⟩⟩
  | none => none

/-- Combinator `Parser.regexp`. -/
def regexpP (m : String → Nat → Option String) : ParserFn String :=
  fun s => sourceMatch m s

/-- Combinator `Parser.constant`. -/
def constantP {α : Type} (v : α) : ParserFn α :=
  fun s => some ⟨v, s⟩

/-- Method `or`: ordered choice from the same starting cursor. -/
def orP {α : Type} (p q : ParserFn α) : ParserFn α :=
  fun s =>
    match p s with
    | some r => some r
    | none => q s

/-- The `while (item = parser.parse(source))` loop of
`Parser.zeroOrMore`, with an explicit iteration budget `n`: the collected
values are accumulated (and reversed at the end, matching `push` order),
and exhausting the budget returns `none` — the loop has run more than `n`
iterations, which models divergence when no budget suffices. -/
def zeroOrMoreAux {α : Type} (p : ParserFn α) :
    Nat → Source → List α → Option (ParseResult (List α))
  | 0, _, _ => none
  | n + 1, s, acc =>
      match p s with
      | none => some ⟨acc.reverse, s⟩
      | some r => zeroOrMoreAux p n r.source (r.value :: acc)

/-- Combinator `Parser.zeroOrMore`.  For the parsers the grammar builds
(token matchers, which always consume at least one character of the fixed
input string), `remaining + 1` iterations always suffice, making this
equal to the source's unbounded loop. -/
def zeroOrMore {α : Type} (p : ParserFn α) : ParserFn (List α) :=
  fun s => zeroOrMoreAux p (s.string.length + 1 - s.index) s []

/-- Method `bind`. -/
def bindP {α β : Type} (p : ParserFn α) (f : α → ParserFn β) : ParserFn β :=
  fun s =>
    match p s with
    | some r => f r.value r.source
    | none => none

/-- Method `and`. -/
def andP {α β : Type} (p : ParserFn α) (q : ParserFn β) : ParserFn β :=
  bindP p (fun _ => q)

/-- Method `map`. -/
def mapP {α β : Type} (p : ParserFn α) (f : α → β) : ParserFn β :=
  bindP p (fun v => constantP (f v))

/-- Combinator `Parser.maybe`: `parser.or(constant(null))`; the
`T | null` result becomes `Option`. -/
def maybeP {α : Type} (p : ParserFn α) : ParserFn (Option α) :=
  orP (mapP p some) (constantP none)

/-- Method `parseStringToCompletion`: parse from offset 0; a null result
throws "Parse error at index 0", a residual cursor not at the end of its
string throws "Parse error at index i" for the residual offset i, and
otherwise the parsed value is returned. -/
def parseStringToCompletion {α : Type} (p : ParserFn α) (string : String) :
    Except String α :=
  match p ⟨string, 0⟩ with
  | none => .error "Parse error at index 0"
  | some result =>
      let index := result.source.index
      if index ≠ result.source.string.length then
        .error s!"Parse error at index {index}"
      else
        .ok result.value

/-- C7: for every parser and input string, `parseStringToCompletion`
either returns the parsed value of a parse that consumed the entire
input, or throws a parse error naming the residual offset; a successful
parse that leaves an unconsumed suffix is reported as a parse error at
that residual offset, never accepted. -/
theorem c7_parse_to_completion {α : Type} (p : ParserFn α) (s : String) :
    (∀ v, parseStringToCompletion p s = .ok v →
        ∃ r, p ⟨s, 0⟩ = some r ∧ r.source.index = r.source.string.length ∧ v = r.value) ∧
    (p ⟨s, 0⟩ = none → parseStringToCompletion p s = .error "Parse error at index 0") ∧
    (∀ r, p ⟨s, 0⟩ = some r → r.source.index ≠ r.source.string.length →
        parseStringToCompletion p s =
          .error ("Parse error at index " ++ toString r.source.index)) := by
  refine ⟨?_, ?_, ?_⟩
  · intro v hv
    unfold parseStringToCompletion at hv
    cases hp : p ⟨s, 0⟩ with
    | none => rw [hp] at hv; cases hv
    | some r =>
        rw [hp] at hv
        simp only at hv
        split at hv
        · cases hv
        · next hne =>
            refine ⟨r, rfl, by omega, ?_⟩
            cases hv
            rfl
  · intro hp
    unfold parseStringToCompletion
    rw [hp]
  · intro r hp hne
    unfold parseStringToCompletion
    rw [hp]
    simp only
    rw [if_pos hne]
    simp [toString]

/-- Witness for `c7_parse_to_completion`: a parser that matches nothing
makes the driver report a parse error at index 0 on input "ab". -/
theorem c7_parse_to_completion_witness :
    parseStringToCompletion (fun (_ : Source) => (none : Option (ParseResult Nat))) "ab"
      = .error "Parse error at index 0" :=
  (c7_parse_to_completion (fun (_ : Source) => (none : Option (ParseResult Nat))) "ab").2.1 rfl

/-- Property of a parser: every successful parse strictly advances the
source index (the hypothesis of claim C9, exactly as stated). -/
def advancesIndex {α : Type} (p : ParserFn α) : Prop :=
  ∀ s r, p s = some r → s.index < r.source.index

/-- The `zeroOrMore` loop runs forever from `s`: no iteration budget is
ever enough for it to finish. -/
def zeroOrMoreDiverges {α : Type} (p : ParserFn α) (s : Source) : Prop :=
  ∀ n, zeroOrMoreAux p n s [] = none

/-- A parser that always succeeds and strictly advances the index, past
the end of the string and beyond (a perfectly legal value of the
`Parser` class: the `Source` index is an arbitrary number). -/
def c9RunawayP : ParserFn Unit :=
  fun s => some ⟨(), ⟨s.string, s.index + 1⟩⟩

/-- Helper: the runaway parser never lets the `zeroOrMore` loop finish,
whatever the budget, starting source and accumulator. -/
theorem c9RunawayP_aux (n : Nat) : ∀ (s : Source) (acc : List Unit),
    zeroOrMoreAux c9RunawayP n s acc = none := by
  induction n with
  | zero => intro s acc; rfl
  | succ n ih => intro s acc; exact ih _ _

/-- C9, counterexample: a parser whose every successful parse strictly
advances the source index, on which `zeroOrMore` nevertheless loops
forever (the index grows past the end of the string and the loop never
sees a failure), so `zeroOrMore` does not terminate on every input for
every index-advancing parser. -/
theorem c9_zero_or_more_refutes :
    advancesIndex c9RunawayP ∧ zeroOrMoreDiverges c9RunawayP ⟨"", 0⟩ :=
  ⟨fun s r h => by cases h; exact Nat.lt_succ_self _,
   fun n => c9RunawayP_aux n ⟨"", 0⟩ []⟩

/-- C9, amended: for every parser whose successful parses strictly
advance the index while staying inside the same source string,
`zeroOrMore` terminates on every input and returns a (possibly empty)
list of the collected values: some fixed result is reached by every
iteration budget larger than the remaining input length, and the loop
never returns null. -/
theorem c9_zero_or_more_terminates {α : Type} (p : ParserFn α)
    (hadv : ∀ s r, p s = some r → s.index < r.source.index)
    (hstr : ∀ s r, p s = some r → r.source.string = s.string)
    (hbnd : ∀ s r, p s = some r → r.source.index ≤ s.string.length)
    (s : Source) :
    ∃ res, ∀ n, s.string.length - s.index < n →
      zeroOrMoreAux p n s [] = some res := by
  suffices h : ∀ (k : Nat) (s : Source), s.string.length - s.index ≤ k →
      ∀ (acc : List α), ∃ res, ∀ n, k < n → zeroOrMoreAux p n s acc = some res by
    obtain ⟨res, hres⟩ := h (s.string.length - s.index) s le_rfl []
    exact ⟨res, fun n hn => hres n hn⟩
  intro k
  induction k with
  | zero =>
      intro s hk acc
      refine ⟨⟨acc.reverse, s⟩, ?_⟩
      intro n hn
      obtain ⟨n, rfl⟩ := Nat.exists_eq_succ_of_ne_zero (by omega : n ≠ 0)
      cases hp : p s with
      | none => simp [zeroOrMoreAux, hp]
      | some r =>
          have h1 := hadv s r hp
          have h2 := hstr s r hp
          have h3 := hbnd s r hp
          omega
  | succ k ih =>
      intro s hk acc
      cases hp : p s with
      | none =>
          refine ⟨⟨acc.reverse, s⟩, ?_⟩
          intro n hn
          obtain ⟨n, rfl⟩ := Nat.exists_eq_succ_of_ne_zero (by omega : n ≠ 0)
          simp [zeroOrMoreAux, hp]
      | some r =>
          have h1 := hadv s r hp
          have h2 := hstr s r hp
          have h3 := hbnd s r hp
          obtain ⟨res, hres⟩ := ih r.source (by rw [h2]; omega) (r.value :: acc)
          refine ⟨res, ?_⟩
          intro n hn
          obtain ⟨n, rfl⟩ := Nat.exists_eq_succ_of_ne_zero (by omega : n ≠ 0)
          simp only [zeroOrMoreAux, hp]
          exact hres n (by omega)

/-- A parser matching one character when one remains: it advances by
exactly one and stays inside the string. -/
def c9OneCharP : ParserFn Unit :=
  fun s => if s.index < s.string.length then some ⟨(), ⟨s.string, s.index + 1⟩⟩ else none

/-- Witness for `c9_zero_or_more_terminates`: the one-character parser
satisfies the hypotheses, and on the two-character input "ab" the
`zeroOrMore` loop finishes with a fixed result for every budget above
the remaining length. -/
theorem c9_zero_or_more_terminates_witness :
    ∃ res, ∀ n, "ab".length - 0 < n →
      zeroOrMoreAux c9OneCharP n ⟨"ab", 0⟩ [] = some res :=
  c9_zero_or_more_terminates c9OneCharP
    (by
      intro s r h
      unfold c9OneCharP at h
      split at h
      · cases h; exact Nat.lt_succ_self _
      · cases h)
    (by
      intro s r h
      unfold c9OneCharP at h
      split at h
      · cases h; rfl
      · cases h)
    (by
      intro s r h
      unfold c9OneCharP at h
      split at h
      · cases h
        next hlt => simpa using hlt
      · cases h)
    ⟨"ab", 0⟩

/-- A word character of the regular expressions `[a-zA-Z0-9_]` (also the
class whose boundary `\b` tests). -/
def isWordChar (c : Char) : Bool := c.isAlpha || c.isDigit || c = '_'

/-- One of the whitespace characters `[ \n\r\t]`. -/
def isSpaceChar (c : Char) : Bool := c = ' ' || c = '\n' || c = '\r' || c = '\t'

/-- Matcher of the sticky regex `/[ \n\r\t]+/y` (`whitespace`). -/
def whitespaceM (s : String) (i : Nat) : Option String :=
  let ds := (s.data.drop i).takeWhile isSpaceChar
  if ds.isEmpty then none else some (String.mk ds)

/-- Matcher of `/[/][/].*/y` (`//` line comments; the dot of a non-`s`
regex stops at line terminators). -/
def lineCommentM (s : String) (i : Nat) : Option String :=
  match s.data.drop i with
  | '/' :: '/' :: rest =>
      some (String.mk ('/' :: '/' :: rest.takeWhile fun c => !(c = '\n' || c = '\r')))
  | _ => none

/-- Position of the last `*/` in a character list (the greedy dot-all
`.*` of the block-comment regex backtracks to the final `*/`). -/
def lastStarSlash (l : List Char) : Option Nat :=
  (List.range l.length).reverse.find? fun k =>
    l.get? k == some '*' && l.get? (k + 1) == some '/'

/-- Matcher of `/[/][*].*[*][/]/sy` (`/* */` block comments, greedy). -/
def blockCommentM (s : String) (i : Nat) : Option String :=
  match s.data.drop i with
  | '/' :: '*' :: rest =>
      match lastStarSlash rest with
      | some k => some (String.mk ('/' :: '*' :: rest.take (k + 2)))
      | none => none
  | _ => none

/-- The tail after a keyword satisfies the word boundary `\b`: end of
input or a non-word character. -/
def boundaryOk : List Char → Bool
  | [] => true
  | c :: _ => !(isWordChar c)

/-- Matcher of a keyword regex `/kw\b/y` (`function`, `if`, `else`,
`return`, `var`, `while`). -/
def keywordM (kw : String) (s : String) (i : Nat) : Option String :=
  let rest := s.data.drop i
  if kw.data.isPrefixOf rest && boundaryOk (rest.drop kw.length) then some kw else none

/-- Matcher of a plain literal token regex (`,`, `;`, parentheses,
braces, the operators). -/
def litM (lit : String) (s : String) (i : Nat) : Option String :=
  if lit.data.isPrefixOf (s.data.drop i) then some lit else none

/-- Matcher of `/=(?![=!])/y` (`ASSIGN`): a `=` not followed by `=` or
`!`. -/
def assignM (s : String) (i : Nat) : Option String :=
  match s.data.drop i with
  | '=' :: rest =>
      match rest with
      | [] => some "="
      | c :: _ => if c = '=' || c = '!' then none else some "="
  | _ => none

/-- Matcher of `/[0-9]+/y` (`NUMBER`). -/
def numberM (s : String) (i : Nat) : Option String :=
  let ds := (s.data.drop i).takeWhile Char.isDigit
  if ds.isEmpty then none else some (String.mk ds)

/-- Matcher of `/[a-zA-Z_][a-zA-Z0-9_]*/y` (`ID`). -/
def idM (s : String) (i : Nat) : Option String :=
  match s.data.drop i with
  | [] => none
  | c :: rest =>
      if c.isAlpha || c = '_' then some (String.mk (c :: rest.takeWhile isWordChar))
      else none

/-- `parseInt` on a digits-only string. -/
def parseIntDec (s : String) : Int :=
  ((s.data.foldl (fun acc c => acc * 10 + (c.toNat - 48)) 0 : Nat) : Int)

/-- Rule `ignored = zeroOrMore(whitespace.or(comments))` where
`comments = lineComment.or(blockComment)`. -/
def ignoredP : ParserFn (List String) :=
  zeroOrMore (orP (regexpP whitespaceM) (orP (regexpP lineCommentM) (regexpP blockCommentM)))

/-- The `token` combinator:
`regexp(pattern).bind(value => ignored.and(constant(value)))`. -/
def tokenP (m : String → Nat → Option String) : ParserFn String :=
  bindP (regexpP m) fun value => andP ignoredP (constantP value)

/-- Keyword token `FUNCTION`. -/
def functionT : ParserFn String := tokenP (keywordM "function")

/-- Keyword token `IF`. -/
def ifT : ParserFn String := tokenP (keywordM "if")

/-- Keyword token `ELSE`. -/
def elseT : ParserFn String := tokenP (keywordM "else")

/-- Keyword token `RETURN`. -/
def returnT : ParserFn String := tokenP (keywordM "return")

/-- Keyword token `VAR`. -/
def varT : ParserFn String := tokenP (keywordM "var")

/-- Keyword token `WHILE`. -/
def whileT : ParserFn String := tokenP (keywordM "while")

/-- Token `ASSIGN`. -/
def assignT : ParserFn String := tokenP assignM

/-- Token `COMMA`. -/
def commaT : ParserFn String := tokenP (litM ",")

/-- Token `SEMICOLON`. -/
def semicolonT : ParserFn String := tokenP (litM ";")

/-- Token `LEFT_PAREN`. -/
def leftParenT : ParserFn String := tokenP (litM "(")

/-- Token `RIGHT_PAREN`. -/
def rightParenT : ParserFn String := tokenP (litM ")")

/-- Token `LEFT_BRACE`. -/
def leftBraceT : ParserFn String := tokenP (litM "\x7b")

/-- Token `RIGHT_BRACE`. -/
def rightBraceT : ParserFn String := tokenP (litM "\x7d")

/-- Token `NUMBER`, mapped to a `Number` node via `parseInt`. -/
def numberP : ParserFn AST :=
  mapP (tokenP numberM) fun digits => AST.number 0 (parseIntDec digits)

/-- Token `ID` (the raw identifier string). -/
def idT : ParserFn String := tokenP idM

/-- Rule `id`: an `ID` token wrapped in an `Id` node. -/
def idP : ParserFn AST := mapP idT fun x => AST.id 0 x

/-- Token `NOT`, mapped to the `Not` constructor. -/
def notOp : ParserFn (AST → AST) := mapP (tokenP (litM "!")) fun _ => AST.not 0

/-- Token `EQUAL`, mapped to the `Equal` constructor. -/
def equalOp : ParserFn (AST → AST → AST) := mapP (tokenP (litM "==")) fun _ => AST.equal 0

/-- Token `NOT_EQUAL`, mapped to the `NotEqual` constructor. -/
def notEqualOp : ParserFn (AST → AST → AST) := mapP (tokenP (litM "!=")) fun _ => AST.notEqual 0

/-- Token `PLUS`, mapped to the `Add` constructor. -/
def plusOp : ParserFn (AST → AST → AST) := mapP (tokenP (litM "+")) fun _ => AST.add 0

/-- Token `MINUS`, mapped to the `Subtract` constructor. -/
def minusOp : ParserFn (AST → AST → AST) := mapP (tokenP (litM "-")) fun _ => AST.subtract 0

/-- Token `STAR`, mapped to the `Multiply` constructor. -/
def starOp : ParserFn (AST → AST → AST) := mapP (tokenP (litM "*")) fun _ => AST.multiply 0

/-- Token `SLASH`, mapped to the `Divide` constructor. -/
def slashOp : ParserFn (AST → AST → AST) := mapP (tokenP (litM "/")) fun _ => AST.divide 0

/-- The generic `infix(operatorParser, termParser)` combinator: a left
term followed by `(operator, term)` pairs folded left-to-right. -/
def infixP (opP : ParserFn (AST → AST → AST)) (termP : ParserFn AST) : ParserFn AST :=
  bindP termP fun term =>
    mapP (zeroOrMore (bindP opP fun op => bindP termP fun t => constantP (op, t)))
      fun operatorTerms => operatorTerms.foldl (fun left p => p.1 left p.2) term

/-- The `expression` grammar (`args`, `call`, `atom`, `unary`,
`product`, `sum`, `comparison`), with the forward reference of the source
(the patched `expression` placeholder) realised by explicit recursion
depth: level `n + 1` may nest expressions of level `n` inside calls and
parentheses.  Each nesting level consumes at least one character, so
`remaining input + 1` levels are always enough. -/
def expressionF : Nat → ParserFn AST
  | 0 => fun _ => none
  | n + 1 =>
      let expr := expressionF n
      -- args <- (expression (COMMA expression)*)?
      let argsP : ParserFn (List AST) :=
        orP (bindP expr fun arg =>
              bindP (zeroOrMore (andP commaT expr)) fun args => constantP (arg :: args))
          (constantP [])
      -- call <- ID LEFT_PAREN args RIGHT_PAREN
      let callP : ParserFn AST :=
        bindP idT fun callee =>
          andP leftParenT
            (bindP argsP fun args => andP rightParenT (constantP (AST.call 0 callee args)))
      -- atom <- call / ID / NUMBER / LEFT_PAREN expression RIGHT_PAREN
      let atomP : ParserFn AST :=
        orP callP (orP idP (orP numberP
          (bindP (andP leftParenT expr) fun e => andP rightParenT (constantP e))))
      -- unary <- NOT? atom
      let unaryP : ParserFn AST :=
        bindP (maybeP notOp) fun nt =>
          mapP atomP fun term =>
            match nt with
            | some f => f term
            | none => term
      -- product <- unary ((STAR / SLASH) unary)*
      let productP := infixP (orP starOp slashOp) unaryP
      -- sum <- product ((PLUS / MINUS) product)*
      let sumP := infixP (orP plusOp minusOp) productP
      -- comparison <- sum ((EQUAL / NOT_EQUAL) sum)*
      infixP (orP equalOp notEqualOp) sumP

/-- Rule `expression`, at self-scaling depth. -/
def expressionP : ParserFn AST :=
  fun s => expressionF (s.string.length + 1 - s.index) s

/-- The `statement` grammar; level `n + 1` may nest statements of level
`n` (the `if`/`while` bodies and block members). -/
def statementF : Nat → ParserFn AST
  | 0 => fun _ => none
  | n + 1 =>
      let stmt := statementF n
      -- returnStatement <- RETURN expression SEMICOLON
      let returnStatementP : ParserFn AST :=
        bindP (andP returnT expressionP) fun term =>
          andP semicolonT (constantP (AST.ret 0 term))
      -- expressionStatement <- expression SEMICOLON
      let expressionStatementP : ParserFn AST :=
        bindP expressionP fun term => andP semicolonT (constantP term)
      -- ifStatement <- IF LEFT_PAREN expression RIGHT_PAREN statement ELSE statement
      let ifStatementP : ParserFn AST :=
        bindP (andP (andP ifT leftParenT) expressionP) fun conditional =>
          bindP (andP rightParenT stmt) fun consequence =>
            bindP (andP elseT stmt) fun alternative =>
              constantP (AST.ifS 0 conditional consequence alternative)
      -- whileStatement <- WHILE LEFT_PAREN expression RIGHT_PAREN statement
      let whileStatementP : ParserFn AST :=
        bindP (andP (andP whileT leftParenT) expressionP) fun conditional =>
          bindP (andP rightParenT stmt) fun body =>
            constantP (AST.whileS 0 conditional body)
      -- varStatement <- VAR ID ASSIGN expression SEMICOLON
      let varStatementP : ParserFn AST :=
        bindP (andP varT idT) fun name =>
          bindP (andP assignT expressionP) fun value =>
            andP semicolonT (constantP (AST.var 0 name value))
      -- assignmentStatement <- ID ASSIGN expression SEMICOLON
      let assignmentStatementP : ParserFn AST :=
        bindP idT fun name =>
          bindP (andP assignT expressionP) fun value =>
            andP semicolonT (constantP (AST.assign 0 name value))
      -- blockStatement <- LEFT_BRACE statement* RIGHT_BRACE
      let blockStatementP : ParserFn AST :=
        bindP (andP leftBraceT (zeroOrMore stmt)) fun statements =>
          andP rightBraceT (constantP (AST.block 0 statements))
      -- statement <- return / if / while / var / assignment / block / expression
      orP returnStatementP (orP ifStatementP (orP whileStatementP (orP varStatementP
        (orP assignmentStatementP (orP blockStatementP expressionStatementP)))))

/-- Rule `statement`, at self-scaling depth. -/
def statementP : ParserFn AST :=
  fun s => statementF (s.string.length + 1 - s.index) s

/-- Rule `blockStatement` as used by `functionDecl`. -/
def blockStatementTopP : ParserFn AST :=
  bindP (andP leftBraceT (zeroOrMore statementP)) fun statements =>
    andP rightBraceT (constantP (AST.block 0 statements))

/-- Rule `parameters <- (ID (COMMA ID)*)?`. -/
def parametersP : ParserFn (List String) :=
  orP (bindP idT fun param =>
        bindP (zeroOrMore (andP commaT idT)) fun params => constantP (param :: params))
    (constantP [])

/-- Rule `functionDecl <- FUNCTION ID LEFT_PAREN parameters RIGHT_PAREN
blockStatement`. -/
def functionDeclP : ParserFn AST :=
  andP functionT
    (bindP idT fun name =>
      bindP (andP leftParenT parametersP) fun parameters =>
        bindP (andP rightParenT blockStatementTopP) fun body =>
          constantP (AST.func 0 name parameters body))

/-- The exported `parser`: `ignored.and(zeroOrMore(functionDecl))`
wrapped into a `Module` node. -/
def parserP : ParserFn AST :=
  mapP (andP ignoredP (zeroOrMore functionDeclP)) fun functions => AST.module 0 functions

/-- C10: tokenization enforces boundaries beyond the grammar: a keyword
token matcher (`function`, `if`, `else`, `return`, `var`, `while`) never
matches when the keyword is followed by a word character, so "iffy"
parses as the identifier `Id "iffy"`; and the `ASSIGN` matcher refuses a
`=` followed by `=` or `!`, so the statement "x == y;" parses as an
expression statement holding `Equal(Id "x", Id "y")`, not as an
`Assign`. -/
theorem c10_token_boundaries :
    (∀ kw s i c rest, kw ∈ ["function", "if", "else", "return", "var", "while"] →
        s.data.drop i = kw.data ++ c :: rest → isWordChar c = true →
        keywordM kw s i = none) ∧
    (∀ s i c rest, s.data.drop i = '=' :: c :: rest → (c = '=' ∨ c = '!') →
        assignM s i = none) ∧
    expressionP ⟨"iffy", 0⟩ = some ⟨AST.id 0 "iffy", ⟨"iffy", 4⟩⟩ ∧
    statementP ⟨"x == y;", 0⟩ =
      some ⟨AST.equal 0 (AST.id 0 "x") (AST.id 0 "y"), ⟨"x == y;", 7⟩⟩ := by
  refine ⟨?_, ?_, rfl, rfl⟩
  · intro kw s i c rest _ h hw
    simp [keywordM, h, boundaryOk, hw]
  · intro s i c rest h hc
    simp only [assignM, h]
    rcases hc with hc | hc <;> subst hc <;> simp

/-- Witness for `c10_token_boundaries`: the `IF` keyword matcher fails
on "iffy" (the keyword is followed by the word character `f`), and the
`ASSIGN` matcher fails at offset 2 of "x == y;" (the `=` is followed by
`=`). -/
theorem c10_token_boundaries_witness :
    keywordM "if" "iffy" 0 = none ∧ assignM "x == y;" 2 = none :=
  ⟨c10_token_boundaries.1 "if" "iffy" 0 'f' ['y'] (by simp) rfl rfl,
   c10_token_boundaries.2.1 "x == y;" 2 '=' [' ', 'y', ';'] rfl (Or.inl rfl)⟩

/-- State of `FunctionFrameAnalysis` (`function_frame.ts`): the private
`#currentFrame` (undefined outside a function) and the `functionFrames`
map.  The map value type admits `undefined` because `visitFunction`
stores whatever `#currentFrame` holds when the body walk returns. -/
structure AnalysisState where
  currentFrame : Option FunctionFrame
  functionFrames : List (String × Option FunctionFrame)
deriving Repr

/-- The `forEach` of `visitFunction` registering the parameters in
declaration order. -/
def addArgumentsFold : List String → FunctionFrame → Except String FunctionFrame
  | [], f => .ok f
  | p :: ps, f => do addArgumentsFold ps (← f.addArgument p)

mutual

/-- The `visit*` methods of `FunctionFrameAnalysis`, dispatched on the
node constructor.  Calling a method of the undefined `#currentFrame` is
the JavaScript `TypeError`, modelled as `.error "TypeError"`.  Note the
order inside `visitIf`: the source visits the conditional, then the
*alternative*, then the consequence. -/
def analysisVisit : AST → AnalysisState → Except String AnalysisState
  | .number _ _, st => .ok st
  | .id r x, st =>
      match st.currentFrame with
      | none => .error "TypeError"
      | some f => do
          let f' ← f.mapLocal r x
          .ok { st with currentFrame := some f' }
  | .not _ t, st => analysisVisit t st
  | .equal _ l rh, st => do analysisVisit rh (← analysisVisit l st)
  | .notEqual _ l rh, st => do analysisVisit rh (← analysisVisit l st)
  | .add _ l rh, st => do analysisVisit rh (← analysisVisit l st)
  | .subtract _ l rh, st => do analysisVisit rh (← analysisVisit l st)
  | .multiply _ l rh, st => do analysisVisit rh (← analysisVisit l st)
  | .divide _ l rh, st => do analysisVisit rh (← analysisVisit l st)
  | .call _ _ args, st => analysisVisitList args st
  | .ret _ t, st => analysisVisit t st
  | .block _ ss, st => analysisVisitList ss st
  | .ifS _ c cs alt, st => do
      let st₁ ← analysisVisit c st
      let st₂ ← analysisVisit alt st₁
      analysisVisit cs st₂
  | .func _ name params body, st =>
      if (List.lookup name st.functionFrames).isSome then
        .error ("Redefinition of function " ++ name)
      else do
        let f ← addArgumentsFold params emptyFrame
        let st₁ ← analysisVisit body { st with currentFrame := some f }
        .ok ⟨none, (name, st₁.currentFrame) :: st₁.functionFrames⟩
  | .var r x value, st => do
      let st₁ ← analysisVisit value st
      match st₁.currentFrame with
      | none => .error "TypeError"
      | some f => .ok { st₁ with currentFrame := some (f.addLocal r x) }
  | .assign r x value, st => do
      let st₁ ← analysisVisit value st
      match st₁.currentFrame with
      | none => .error "TypeError"
      | some f => do
          let f' ← f.mapLocal r x
          .ok { st₁ with currentFrame := some f' }
  | .whileS _ c b, st => do analysisVisit b (← analysisVisit c st)
  | .module _ fs, st => analysisVisitList fs st

/-- The `forEach` visits over child lists (`visitCall`, `visitBlock`,
`visitModule`). -/
def analysisVisitList : List AST → AnalysisState → Except String AnalysisState
  | [], st => .ok st
  | t :: ts, st => do analysisVisitList ts (← analysisVisit t st)

end

/-- The exported `analyzeFrames` entry point. -/
def analyzeFrames (ast : AST) : Except String (List (String × Option FunctionFrame)) :=
  (analysisVisit ast ⟨none, []⟩).map (·.functionFrames)

/-- Convenience projection for stating concrete facts: the slot recorded
for node identity `r` in the frame that `analyzeFrames` computed for
function `fname`. -/
def slotOf (m : AST) (fname : String) (r : Nat) : Option Nat :=
  match analyzeFrames m with
  | .ok frames =>
      match List.lookup fname frames with
      | some (some f) => f.getOffset r
      | _ => none
  | .error _ => none

mutual

/-- A tree is function-free when it contains no `Function` or `Module`
node (the invariant of every function body the parser produces). -/
def funcFree : AST → Bool
  | .number _ _ => true
  | .id _ _ => true
  | .not _ t => funcFree t
  | .equal _ l r => funcFree l && funcFree r
  | .notEqual _ l r => funcFree l && funcFree r
  | .add _ l r => funcFree l && funcFree r
  | .subtract _ l r => funcFree l && funcFree r
  | .multiply _ l r => funcFree l && funcFree r
  | .divide _ l r => funcFree l && funcFree r
  | .call _ _ args => funcFreeList args
  | .ret _ t => funcFree t
  | .block _ ss => funcFreeList ss
  | .ifS _ c cs alt => funcFree c && funcFree cs && funcFree alt
  | .func _ _ _ _ => false
  | .var _ _ v => funcFree v
  | .assign _ _ v => funcFree v
  | .whileS _ c b => funcFree c && funcFree b
  | .module _ _ => false

/-- List version of `funcFree`. -/
def funcFreeList : List AST → Bool
  | [] => true
  | t :: ts => funcFree t && funcFreeList ts

end

/-- A private `func.func` declaration line of the structured IR, for any
declared name and signature: the only form of external declaration
`MlirCodegen` ever emits. -/
def IsPrivDecl (l : String) : Prop := ∃ t : String, l = "  func.func private @" ++ t

/-- A line whose leading literal chunk is incomparable (as a character
prefix) with the declaration header is not a private declaration,
whatever follows the chunk. -/
theorem notPriv_append (a : String)
    (h1 : ¬ a.data <+: "  func.func private @".data)
    (h2 : ¬ "  func.func private @".data <+: a.data) (t : String) :
    ¬ IsPrivDecl (a ++ t) := by
  rintro ⟨u, hu⟩
  have hd : a.data ++ t.data = "  func.func private @".data ++ u.data := by
    have h := congrArg String.data hu
    simpa [String.data_append] using h
  rcases List.append_eq_append_iff.mp hd with ⟨k, hk, _⟩ | ⟨k, hk, _⟩
  · exact h1 ⟨k, hk.symm⟩
  · exact h2 ⟨k, hk.symm⟩

/-- A literal line that does not begin with the declaration header is
not a private declaration. -/
theorem notPriv_lit (l : String)
    (h : ¬ "  func.func private @".data <+: l.data) : ¬ IsPrivDecl l := by
  rintro ⟨u, rfl⟩
  exact h ⟨u.data, by simp [String.data_append]⟩

/-- A label line (two spaces, a `^bb` label, then anything) is not a
private declaration. -/
theorem notPriv_label (lab t : String) (hlab : ∃ u, lab = "^bb" ++ u) :
    ¬ IsPrivDecl ("  " ++ lab ++ t) := by
  obtain ⟨u, rfl⟩ := hlab
  have h : "  " ++ ("^bb" ++ u) ++ t = "  ^bb" ++ (u ++ t) := by
    rw [← String.append_assoc "  " "^bb" u, String.append_assoc]
    rfl
  rw [h]
  exact notPriv_append "  ^bb" (by decide) (by decide) _

/-- The label names produced by `new Label()`. -/
theorem newMlirLabel_shape (st : MlirState) : ∃ u, (newMlirLabel st).1 = "^bb" ++ u :=
  ⟨toString st.labelCounter ++ "", String.append_assoc _ _ _⟩

/-- Between two generator states, every output line is an old line or is
no private declaration: the relation tracking that a stretch of code
generation emits no external declaration. -/
def NoNewPriv (st st' : MlirState) : Prop :=
  ∀ l ∈ st'.output, l ∈ st.output ∨ ¬ IsPrivDecl l

theorem NoNewPriv.base (st : MlirState) : NoNewPriv st st := fun _ hl => Or.inl hl

theorem NoNewPriv.trans {a b c : MlirState} (h1 : NoNewPriv a b) (h2 : NoNewPriv b c) :
    NoNewPriv a c := fun l hl => (h2 l hl).elim (fun hb => h1 l hb) Or.inr

theorem NoNewPriv.emit {a b : MlirState} (h : NoNewPriv a b) {x : String}
    (hx : ¬ IsPrivDecl x) : NoNewPriv a (mlirEmit x b) := by
  intro l hl
  rcases List.mem_cons.mp hl with rfl | hl
  · exact Or.inr hx
  · exact h l hl

theorem NoNewPriv.newValue {a b : MlirState} (h : NoNewPriv a b) :
    NoNewPriv a (newValue b).2 := fun l hl => h l hl

theorem NoNewPriv.newLabel {a b : MlirState} (h : NoNewPriv a b) :
    NoNewPriv a (newMlirLabel b).2 := fun l hl => h l hl

theorem NoNewPriv.load {a b : MlirState} (h : NoNewPriv a b) (n : Int) :
    NoNewPriv a (mlirLoadNumber n b).2 := by
  refine h.newValue.emit ?_
  rw [String.append_assoc]
  exact notPriv_append "    " (by decide) (by decide) _

theorem NoNewPriv.emitLabel {a b : MlirState} (h : NoNewPriv a b) {lab : String}
    (hlab : ∃ u, lab = "^bb" ++ u) : NoNewPriv a (mlirEmitLabel lab b) :=
  h.emit (notPriv_label lab ":" hlab)

theorem NoNewPriv.emitBr {a b : MlirState} (h : NoNewPriv a b) (j : String) {l : String}
    (hl : ∃ u, l = "^bb" ++ u) : NoNewPriv a (mlirEmitBr j l b) :=
  (h.emit (notPriv_append "    cf.br " (by decide) (by decide) j)).emitLabel hl

theorem NoNewPriv.withFrame {a b : MlirState} (h : NoNewPriv a b)
    (cf : Option FunctionFrame) (fv : Option (List String)) :
    NoNewPriv a { b with currentFrame := cf, frameVars := fv } :=
  fun l hl => h l hl

/-- The allocation loop of `visitFunction` emits only `memref.alloca`
lines. -/
theorem noNewPriv_alloc (a : MlirState) (n : Nat) : ∀ b : MlirState, NoNewPriv a b →
    NoNewPriv a (allocFrameVars n b).1 := by
  induction n with
  | zero => exact fun b h => h
  | succ k ih =>
      intro b h
      refine ih _ (h.newValue.emit ?_)
      rw [String.append_assoc]
      exact notPriv_append "    " (by decide) (by decide) _

/-- The parameter-store loop of `visitFunction` emits only
`memref.store` lines. -/
theorem noNewPriv_store (a : MlirState) (ps : List String) : ∀ (vars : List String)
    (i : Nat) (b : MlirState), NoNewPriv a b → NoNewPriv a (storeParams ps vars i b) := by
  induction ps with
  | nil => exact fun _ _ b h => h
  | cons p ps ih =>
      intro vars i b h
      refine ih _ _ _ (h.emit ?_)
      simp only [String.append_assoc]
      exact notPriv_append "    memref.store %" (by decide) (by decide) _

/-- Splitting a successful monadic bind in `Except`. -/
theorem bind_ok_elim {α β : Type} {e : Except String α} {k : α → Except String β} {b : β}
    (h : e.bind k = .ok b) : ∃ a, e = .ok a ∧ k a = .ok b := by
  cases e with
  | error msg => simp [Except.bind] at h
  | ok a => exact ⟨a, rfl, h⟩

/-- Induction statement for `visitM`: visiting a function-free tree adds
no private declaration line to the output. -/
def MNoPrivIH (t : AST) : Prop := ∀ (frames : List (String × Option FunctionFrame))
  (st st' : MlirState) (v : Option String), funcFree t = true →
  visitM frames t st = .ok (st', v) → NoNewPriv st st'

/-- Induction statement for `visitMList`. -/
def MNoPrivListIH (ts : List AST) : Prop := ∀ (frames : List (String × Option FunctionFrame))
  (st st' : MlirState), funcFreeList ts = true →
  visitMList frames ts st = .ok st' → NoNewPriv st st'

/-- Induction statement for `visitMArgs`. -/
def MNoPrivArgsIH (ts : List AST) : Prop := ∀ (frames : List (String × Option FunctionFrame))
  (st st' : MlirState) (vs : List String), funcFreeList ts = true →
  visitMArgs frames ts st = .ok (st', vs) → NoNewPriv st st'

mutual

/-- No `visit*` method of `MlirCodegen` except `visitModule` (excluded
by function-freeness) emits a private declaration line. -/
theorem visitM_noPriv (t : AST) : MNoPrivIH t := by
  cases t with
  | number r n =>
      intro frames st st' v _ hok
      simp only [visitM] at hok
      simp only [Except.ok.injEq, Prod.mk.injEq] at hok
      obtain ⟨rfl, -⟩ := hok
      exact (NoNewPriv.base st).load n
  | id r x =>
      intro frames st st' v _ hok
      simp only [visitM] at hok
      cases hcf : st.currentFrame with
      | none => rw [hcf] at hok; simp at hok
      | some f =>
          rw [hcf] at hok
          cases hfv : st.frameVars with
          | none => rw [hfv] at hok; simp at hok
          | some vars =>
              rw [hfv] at hok
              simp only [Except.ok.injEq, Prod.mk.injEq] at hok
              obtain ⟨rfl, -⟩ := hok
              refine NoNewPriv.emit ?_ (by
                first
                | (simp only [String.append_assoc]
                   exact notPriv_append _ (by decide) (by decide) _)
                | exact notPriv_append _ (by decide) (by decide) _)
              exact (NoNewPriv.base st).newValue
  | not r c =>
      intro frames st st' v hff hok
      simp only [visitM] at hok
      obtain ⟨p₁, h₁, hok⟩ := bind_ok_elim hok
      simp only [Except.ok.injEq, Prod.mk.injEq] at hok
      obtain ⟨rfl, -⟩ := hok
      refine NoNewPriv.emit ?_ (by
        first
        | (simp only [String.append_assoc]
           exact notPriv_append _ (by decide) (by decide) _)
        | exact notPriv_append _ (by decide) (by decide) _)
      refine NoNewPriv.emit ?_ (by
        first
        | (simp only [String.append_assoc]
           exact notPriv_append _ (by decide) (by decide) _)
        | exact notPriv_append _ (by decide) (by decide) _)
      exact ((visitM_noPriv c frames st p₁.1 p₁.2 hff h₁).load 0).load 1
        |>.newValue.newValue
  | equal r l rh =>
      intro frames st st' v hff hok
      have hff' : (funcFree l && funcFree rh) = true := hff
      rw [Bool.and_eq_true] at hff'
      simp only [visitM] at hok
      obtain ⟨p₁, h₁, hok⟩ := bind_ok_elim hok
      obtain ⟨p₂, h₂, hok⟩ := bind_ok_elim hok
      simp only [Except.ok.injEq, Prod.mk.injEq] at hok
      obtain ⟨rfl, -⟩ := hok
      refine NoNewPriv.emit ?_ (by
        first
        | (simp only [String.append_assoc]
           exact notPriv_append _ (by decide) (by decide) _)
        | exact notPriv_append _ (by decide) (by decide) _)
      refine NoNewPriv.emit ?_ (by
        first
        | (simp only [String.append_assoc]
           exact notPriv_append _ (by decide) (by decide) _)
        | exact notPriv_append _ (by decide) (by decide) _)
      have s₁ := visitM_noPriv l frames st p₁.1 p₁.2 hff'.1 h₁
      have s₂ := visitM_noPriv rh frames p₁.1 p₂.1 p₂.2 hff'.2 h₂
      exact ((s₁.trans s₂).load 0).load 1 |>.newValue.newValue
  | notEqual r l rh =>
      intro frames st st' v hff hok
      have hff' : (funcFree l && funcFree rh) = true := hff
      rw [Bool.and_eq_true] at hff'
      simp only [visitM] at hok
      obtain ⟨p₁, h₁, hok⟩ := bind_ok_elim hok
      obtain ⟨p₂, h₂, hok⟩ := bind_ok_elim hok
      simp only [Except.ok.injEq, Prod.mk.injEq] at hok
      obtain ⟨rfl, -⟩ := hok
      refine NoNewPriv.emit ?_ (by
        first
        | (simp only [String.append_assoc]
           exact notPriv_append _ (by decide) (by decide) _)
        | exact notPriv_append _ (by decide) (by decide) _)
      refine NoNewPriv.emit ?_ (by
        first
        | (simp only [String.append_assoc]
           exact notPriv_append _ (by decide) (by decide) _)
        | exact notPriv_append _ (by decide) (by decide) _)
      have s₁ := visitM_noPriv l frames st p₁.1 p₁.2 hff'.1 h₁
      have s₂ := visitM_noPriv rh frames p₁.1 p₂.1 p₂.2 hff'.2 h₂
      exact ((s₁.trans s₂).load 0).load 1 |>.newValue.newValue
  | add r l rh =>
      intro frames st st' v hff hok
      have hff' : (funcFree l && funcFree rh) = true := hff
      rw [Bool.and_eq_true] at hff'
      simp only [visitM] at hok
      obtain ⟨p₁, h₁, hok⟩ := bind_ok_elim hok
      obtain ⟨p₂, h₂, hok⟩ := bind_ok_elim hok
      simp only [Except.ok.injEq, Prod.mk.injEq] at hok
      obtain ⟨rfl, -⟩ := hok
      refine NoNewPriv.emit ?_ (by
        first
        | (simp only [String.append_assoc]
           exact notPriv_append _ (by decide) (by decide) _)
        | exact notPriv_append _ (by decide) (by decide) _)
      have s₁ := visitM_noPriv l frames st p₁.1 p₁.2 hff'.1 h₁
      have s₂ := visitM_noPriv rh frames p₁.1 p₂.1 p₂.2 hff'.2 h₂
      exact (s₁.trans s₂).newValue
  | subtract r l rh =>
      intro frames st st' v hff hok
      have hff' : (funcFree l && funcFree rh) = true := hff
      rw [Bool.and_eq_true] at hff'
      simp only [visitM] at hok
      obtain ⟨p₁, h₁, hok⟩ := bind_ok_elim hok
      obtain ⟨p₂, h₂, hok⟩ := bind_ok_elim hok
      simp only [Except.ok.injEq, Prod.mk.injEq] at hok
      obtain ⟨rfl, -⟩ := hok
      refine NoNewPriv.emit ?_ (by
        first
        | (simp only [String.append_assoc]
           exact notPriv_append _ (by decide) (by decide) _)
        | exact notPriv_append _ (by decide) (by decide) _)
      have s₁ := visitM_noPriv l frames st p₁.1 p₁.2 hff'.1 h₁
      have s₂ := visitM_noPriv rh frames p₁.1 p₂.1 p₂.2 hff'.2 h₂
      exact (s₁.trans s₂).newValue
  | multiply r l rh =>
      intro frames st st' v hff hok
      have hff' : (funcFree l && funcFree rh) = true := hff
      rw [Bool.and_eq_true] at hff'
      simp only [visitM] at hok
      obtain ⟨p₁, h₁, hok⟩ := bind_ok_elim hok
      obtain ⟨p₂, h₂, hok⟩ := bind_ok_elim hok
      simp only [Except.ok.injEq, Prod.mk.injEq] at hok
      obtain ⟨rfl, -⟩ := hok
      refine NoNewPriv.emit ?_ (by
        first
        | (simp only [String.append_assoc]
           exact notPriv_append _ (by decide) (by decide) _)
        | exact notPriv_append _ (by decide) (by decide) _)
      have s₁ := visitM_noPriv l frames st p₁.1 p₁.2 hff'.1 h₁
      have s₂ := visitM_noPriv rh frames p₁.1 p₂.1 p₂.2 hff'.2 h₂
      exact (s₁.trans s₂).newValue
  | divide r l rh =>
      intro frames st st' v hff hok
      have hff' : (funcFree l && funcFree rh) = true := hff
      rw [Bool.and_eq_true] at hff'
      simp only [visitM] at hok
      obtain ⟨p₁, h₁, hok⟩ := bind_ok_elim hok
      obtain ⟨p₂, h₂, hok⟩ := bind_ok_elim hok
      simp only [Except.ok.injEq, Prod.mk.injEq] at hok
      obtain ⟨rfl, -⟩ := hok
      refine NoNewPriv.emit ?_ (by
        first
        | (simp only [String.append_assoc]
           exact notPriv_append _ (by decide) (by decide) _)
        | exact notPriv_append _ (by decide) (by decide) _)
      have s₁ := visitM_noPriv l frames st p₁.1 p₁.2 hff'.1 h₁
      have s₂ := visitM_noPriv rh frames p₁.1 p₂.1 p₂.2 hff'.2 h₂
      exact (s₁.trans s₂).newValue
  | call r callee args =>
      intro frames st st' v hff hok
      simp only [visitM] at hok
      obtain ⟨p₁, h₁, hok⟩ := bind_ok_elim hok
      simp only [Except.ok.injEq, Prod.mk.injEq] at hok
      obtain ⟨rfl, -⟩ := hok
      refine NoNewPriv.emit ?_ (by
        first
        | (simp only [String.append_assoc]
           exact notPriv_append _ (by decide) (by decide) _)
        | exact notPriv_append _ (by decide) (by decide) _)
      exact (visitMArgs_noPriv args frames st p₁.1 p₁.2 hff h₁).newValue
  | ret r c =>
      intro frames st st' v hff hok
      simp only [visitM] at hok
      obtain ⟨p₁, h₁, hok⟩ := bind_ok_elim hok
      simp only [Except.ok.injEq, Prod.mk.injEq] at hok
      obtain ⟨rfl, -⟩ := hok
      refine NoNewPriv.emitLabel ?_ (newMlirLabel_shape _)
      refine NoNewPriv.newLabel ?_
      refine NoNewPriv.emit ?_ (by
        first
        | (simp only [String.append_assoc]
           exact notPriv_append _ (by decide) (by decide) _)
        | exact notPriv_append _ (by decide) (by decide) _)
      exact visitM_noPriv c frames st p₁.1 p₁.2 hff h₁
  | block r ss =>
      intro frames st st' v hff hok
      simp only [visitM] at hok
      obtain ⟨p₁, h₁, hok⟩ := bind_ok_elim hok
      simp only [Except.ok.injEq, Prod.mk.injEq] at hok
      obtain ⟨rfl, -⟩ := hok
      exact visitMList_noPriv ss frames st p₁ hff h₁
  | ifS r c cs alt =>
      intro frames st st' v hff hok
      have hff' : ((funcFree c && funcFree cs) && funcFree alt) = true := hff
      rw [Bool.and_eq_true, Bool.and_eq_true] at hff'
      simp only [visitM] at hok
      obtain ⟨p₁, h₁, hok⟩ := bind_ok_elim hok
      obtain ⟨p₂, h₂, hok⟩ := bind_ok_elim hok
      obtain ⟨p₃, h₃, hok⟩ := bind_ok_elim hok
      simp only [Except.ok.injEq, Prod.mk.injEq] at hok
      obtain ⟨rfl, -⟩ := hok
      have s₁ := visitM_noPriv c frames st p₁.1 p₁.2 hff'.1.1 h₁
      have s₂ := visitM_noPriv cs frames _ p₂.1 p₂.2 hff'.1.2 h₂
      have s₃ := visitM_noPriv alt frames _ p₃.1 p₃.2 hff'.2 h₃
      refine NoNewPriv.emitBr ?_ _ (newMlirLabel_shape _)
      refine NoNewPriv.trans ?_ s₃
      refine NoNewPriv.emitBr ?_ _ (newMlirLabel_shape _)
      refine NoNewPriv.trans ?_ s₂
      refine NoNewPriv.emitLabel ?_ (newMlirLabel_shape _)
      refine NoNewPriv.emit ?_ (notPriv_lit _ (by decide))
      refine NoNewPriv.emit ?_ (by
        first
        | (simp only [String.append_assoc]
           exact notPriv_append _ (by decide) (by decide) _)
        | exact notPriv_append _ (by decide) (by decide) _)
      refine NoNewPriv.emit ?_ (by
        first
        | (simp only [String.append_assoc]
           exact notPriv_append _ (by decide) (by decide) _)
        | exact notPriv_append _ (by decide) (by decide) _)
      refine NoNewPriv.emit ?_ (by
        first
        | (simp only [String.append_assoc]
           exact notPriv_append _ (by decide) (by decide) _)
        | exact notPriv_append _ (by decide) (by decide) _)
      exact s₁.newLabel.newLabel.newLabel
  | func r nm ps b =>
      intro frames st st' v hff _
      exact Bool.noConfusion hff
  | var r x value =>
      intro frames st st' v hff hok
      simp only [visitM] at hok
      obtain ⟨p₁, h₁, hok⟩ := bind_ok_elim hok
      cases hcf : p₁.1.currentFrame with
      | none => rw [hcf] at hok; simp at hok
      | some f =>
          rw [hcf] at hok
          cases hfv : p₁.1.frameVars with
          | none => rw [hfv] at hok; simp at hok
          | some vars =>
              rw [hfv] at hok
              simp only [Except.ok.injEq, Prod.mk.injEq] at hok
              obtain ⟨rfl, -⟩ := hok
              refine NoNewPriv.emit ?_ (by
                first
                | (simp only [String.append_assoc]
                   exact notPriv_append _ (by decide) (by decide) _)
                | exact notPriv_append _ (by decide) (by decide) _)
              exact visitM_noPriv value frames st p₁.1 p₁.2 hff h₁
  | assign r x value =>
      intro frames st st' v hff hok
      simp only [visitM] at hok
      obtain ⟨p₁, h₁, hok⟩ := bind_ok_elim hok
      cases hcf : p₁.1.currentFrame with
      | none => rw [hcf] at hok; simp at hok
      | some f =>
          rw [hcf] at hok
          cases hfv : p₁.1.frameVars with
          | none => rw [hfv] at hok; simp at hok
          | some vars =>
              rw [hfv] at hok
              simp only [Except.ok.injEq, Prod.mk.injEq] at hok
              obtain ⟨rfl, -⟩ := hok
              refine NoNewPriv.emit ?_ (by
                first
                | (simp only [String.append_assoc]
                   exact notPriv_append _ (by decide) (by decide) _)
                | exact notPriv_append _ (by decide) (by decide) _)
              exact visitM_noPriv value frames st p₁.1 p₁.2 hff h₁
  | whileS r c b =>
      intro frames st st' v hff hok
      have hff' : (funcFree c && funcFree b) = true := hff
      rw [Bool.and_eq_true] at hff'
      simp only [visitM] at hok
      obtain ⟨p₁, h₁, hok⟩ := bind_ok_elim hok
      obtain ⟨p₂, h₂, hok⟩ := bind_ok_elim hok
      simp only [Except.ok.injEq, Prod.mk.injEq] at hok
      obtain ⟨rfl, -⟩ := hok
      have s₁ := visitM_noPriv c frames _ p₁.1 p₁.2 hff'.1 h₁
      have s₂ := visitM_noPriv b frames _ p₂.1 p₂.2 hff'.2 h₂
      refine NoNewPriv.emitBr ?_ _ (newMlirLabel_shape _)
      refine NoNewPriv.trans ?_ s₂
      refine NoNewPriv.emitLabel ?_ (newMlirLabel_shape _)
      refine NoNewPriv.emit ?_ (notPriv_lit _ (by decide))
      refine NoNewPriv.emit ?_ (by
        first
        | (simp only [String.append_assoc]
           exact notPriv_append _ (by decide) (by decide) _)
        | exact notPriv_append _ (by decide) (by decide) _)
      refine NoNewPriv.emit ?_ (by
        first
        | (simp only [String.append_assoc]
           exact notPriv_append _ (by decide) (by decide) _)
        | exact notPriv_append _ (by decide) (by decide) _)
      refine NoNewPriv.emit ?_ (by
        first
        | (simp only [String.append_assoc]
           exact notPriv_append _ (by decide) (by decide) _)
        | exact notPriv_append _ (by decide) (by decide) _)
      refine NoNewPriv.trans ?_ s₁
      refine NoNewPriv.emitBr ?_ _ (newMlirLabel_shape _)
      exact (NoNewPriv.base st).newLabel.newLabel.newLabel
  | module r fs =>
      intro frames st st' v hff _
      exact Bool.noConfusion hff

/-- List version of `visitM_noPriv` for statement sequences. -/
theorem visitMList_noPriv (ts : List AST) : MNoPrivListIH ts := by
  cases ts with
  | nil =>
      intro frames st st' _ hok
      obtain rfl := Except.ok.inj hok
      exact NoNewPriv.base st
  | cons t ts =>
      intro frames st st' hff hok
      have hff' : (funcFree t && funcFreeList ts) = true := hff
      rw [Bool.and_eq_true] at hff'
      simp only [visitMList] at hok
      obtain ⟨p₁, h₁, hok⟩ := bind_ok_elim hok
      exact (visitM_noPriv t frames st p₁.1 p₁.2 hff'.1 h₁).trans
        (visitMList_noPriv ts frames p₁.1 st' hff'.2 hok)

/-- List version of `visitM_noPriv` for call arguments. -/
theorem visitMArgs_noPriv (ts : List AST) : MNoPrivArgsIH ts := by
  cases ts with
  | nil =>
      intro frames st st' vs _ hok
      simp only [visitMArgs, Except.ok.injEq, Prod.mk.injEq] at hok
      obtain ⟨rfl, -⟩ := hok
      exact NoNewPriv.base st
  | cons t ts =>
      intro frames st st' vs hff hok
      have hff' : (funcFree t && funcFreeList ts) = true := hff
      rw [Bool.and_eq_true] at hff'
      simp only [visitMArgs] at hok
      obtain ⟨p₁, h₁, hok⟩ := bind_ok_elim hok
      obtain ⟨p₂, h₂, hok⟩ := bind_ok_elim hok
      simp only [Except.ok.injEq, Prod.mk.injEq] at hok
      obtain ⟨rfl, -⟩ := hok
      exact (visitM_noPriv t frames st p₁.1 p₁.2 hff'.1 h₁).trans
        (visitMArgs_noPriv ts frames p₁.1 p₂.1 p₂.2 hff'.2 h₂)

end

/-- `visitFunction` emits the function header, allocas, parameter
stores, the body and the default return, but no private declaration
line. -/
theorem visitMFunc_noPriv (frames : List (String × Option FunctionFrame)) (r : Nat)
    (nm : String) (ps : List String) (b : AST) (st st' : MlirState) (v : Option String)
    (hb : funcFree b = true) (h : visitM frames (.func r nm ps b) st = .ok (st', v)) :
    NoNewPriv st st' := by
  simp only [visitM] at h
  cases hlk : List.lookup nm frames with
  | none => rw [hlk] at h; simp at h
  | some o =>
      cases o with
      | none => rw [hlk] at h; simp at h
      | some cf =>
          rw [hlk] at h
          obtain ⟨p₁, h₁, h⟩ := bind_ok_elim h
          simp only [Except.ok.injEq, Prod.mk.injEq] at h
          obtain ⟨rfl, -⟩ := h
          refine NoNewPriv.emit ?_ (notPriv_lit _ (by decide))
          refine NoNewPriv.emit ?_ (by
            first
            | (simp only [String.append_assoc]
               exact notPriv_append _ (by decide) (by decide) _)
            | exact notPriv_append _ (by decide) (by decide) _)
          refine NoNewPriv.load ?_ _
          refine NoNewPriv.withFrame ?_ _ _
          refine NoNewPriv.trans ?_ (visitM_noPriv b frames _ p₁.1 p₁.2 hb h₁)
          refine NoNewPriv.withFrame ?_ _ _
          refine noNewPriv_store st ps _ _ _ ?_
          refine noNewPriv_alloc st _ _ ?_
          refine NoNewPriv.emit ?_ (by
            first
            | (simp only [String.append_assoc]
               exact notPriv_append _ (by decide) (by decide) _)
            | exact notPriv_append _ (by decide) (by decide) _)
          exact NoNewPriv.base st

/-- A list of parser-shaped function declarations adds no private
declaration line to the output. -/
theorem visitMFuncs_noPriv (fs : List AST) : ∀ (frames : List (String × Option FunctionFrame))
    (st st' : MlirState),
    (∀ t ∈ fs, ∃ rr nm ps b, t = AST.func rr nm ps b ∧ funcFree b = true) →
    visitMList frames fs st = .ok st' → NoNewPriv st st' := by
  induction fs with
  | nil =>
      intro frames st st' _ h
      obtain rfl := Except.ok.inj h
      exact NoNewPriv.base st
  | cons t ts ih =>
      intro frames st st' hsh h
      obtain ⟨rr, nm, ps, b, rfl, hffb⟩ := hsh t (List.mem_cons_self _ _)
      simp only [visitMList] at h
      obtain ⟨p₁, h₁, h⟩ := bind_ok_elim h
      exact (visitMFunc_noPriv frames rr nm ps b st p₁.1 p₁.2 hffb h₁).trans
        (ih frames p₁.1 st' (fun u hu => hsh u (List.mem_cons_of_mem _ hu)) h)

/-- Well-formedness of a module as the parser produces it: a list of
functions whose bodies contain no nested `Function`/`Module` node. -/
def wfModuleB : AST → Bool
  | .module _ fs => fs.all fun t =>
      match t with
      | .func _ _ _ b => funcFree b
      | _ => false
  | _ => false

/-- Shape of the functions of a well-formed module. -/
theorem wfModule_shapes (r : Nat) (fs : List AST) (hwf : wfModuleB (.module r fs) = true) :
    ∀ t ∈ fs, ∃ rr nm ps b, t = AST.func rr nm ps b ∧ funcFree b = true := by
  intro t ht
  have hall : (fs.all fun u => match u with
      | .func _ _ _ b => funcFree b
      | _ => false) = true := hwf
  rw [List.all_eq_true] at hall
  have hu := hall t ht
  cases t
  case func rr nm ps b => exact ⟨rr, nm, ps, b, rfl, hu⟩
  all_goals exact Bool.noConfusion hu

/-- C6, amended: the structured-IR module output always ends with the
trailing external declaration of the `print` intrinsic followed by the
closing brace, whether or not `print` is ever called, and no other
private (external) declaration line appears anywhere in the output — in
particular no declaration for any other called-but-undefined
function. -/
theorem c6_trailing_print_decl (frames : List (String × Option FunctionFrame))
    (r : Nat) (fs : List AST) (st st' : MlirState) (v : Option String)
    (hwf : wfModuleB (.module r fs) = true)
    (h : visitM frames (.module r fs) st = .ok (st', v)) :
    ∃ mid, st'.output = "\x7d" :: printDeclLine :: mid ∧
      ∀ l ∈ mid, l ∈ st.output ∨ ¬ IsPrivDecl l := by
  rw [visitM_module] at h
  obtain ⟨st₁, h₁, h⟩ := bind_ok_elim h
  simp only [Except.ok.injEq, Prod.mk.injEq] at h
  obtain ⟨rfl, -⟩ := h
  refine ⟨st₁.output, rfl, ?_⟩
  intro l hl
  have hnp := visitMFuncs_noPriv fs frames _ st₁ (wfModule_shapes r fs hwf) h₁
  rcases hnp l hl with hmem | hpriv
  · rcases List.mem_cons.mp hmem with rfl | hmem
    · exact Or.inr (notPriv_lit _ (by decide))
    · exact Or.inl hmem
  · exact Or.inr hpriv

/-- Witness for `c6_trailing_print_decl`: a module with one function
calling the undefined `foo` generates successfully; its output ends with
the `print` declaration and the closing brace, and no earlier line is a
private declaration. -/
theorem c6_trailing_print_decl_witness :
    ∃ mid, (MlirState.mk 3 0 none none
        ["\x7d", printDeclLine, "  \x7d", "    return %2 : i64",
         "    %2 = arith.constant 0 : i64", "    %1 = call @foo(%0) : (i64) -> i64",
         "    %0 = arith.constant 7 : i64", "  func.func @main() -> i64 \x7b",
         "module \x7b"]).output = "\x7d" :: printDeclLine :: mid ∧
      ∀ l ∈ mid, l ∈ mlirInitState.output ∨ ¬ IsPrivDecl l :=
  c6_trailing_print_decl [("main", some emptyFrame)] 0
    [.func 1 "main" [] (.block 2 [.call 3 "foo" [.number 4 7]])]
    mlirInitState _ none rfl rfl

mutual

/-- All subterms of a tree (itself included), in pre-order. -/
def subtermList : AST → List AST
  | .number r v => [.number r v]
  | .id r v => [.id r v]
  | .not r t => .not r t :: subtermList t
  | .equal r l rt => .equal r l rt :: (subtermList l ++ subtermList rt)
  | .notEqual r l rt => .notEqual r l rt :: (subtermList l ++ subtermList rt)
  | .add r l rt => .add r l rt :: (subtermList l ++ subtermList rt)
  | .subtract r l rt => .subtract r l rt :: (subtermList l ++ subtermList rt)
  | .multiply r l rt => .multiply r l rt :: (subtermList l ++ subtermList rt)
  | .divide r l rt => .divide r l rt :: (subtermList l ++ subtermList rt)
  | .call r c args => .call r c args :: subtermListList args
  | .ret r t => .ret r t :: subtermList t
  | .block r ss => .block r ss :: subtermListList ss
  | .ifS r c cs alt => .ifS r c cs alt :: (subtermList c ++ subtermList cs ++ subtermList alt)
  | .func r n ps b => .func r n ps b :: subtermList b
  | .var r n v => .var r n v :: subtermList v
  | .assign r n v => .assign r n v :: subtermList v
  | .whileS r c b => .whileS r c b :: (subtermList c ++ subtermList b)
  | .module r fs => .module r fs :: subtermListList fs

/-- All subterms of a list of trees, in pre-order. -/
def subtermListList : List AST → List AST
  | [] => []
  | t :: ts => subtermList t ++ subtermListList ts

end

/-- Name resolved by `mapLocal` for a node, when the node is an `Id` or
an `Assign` (`(v instanceof Id) ? v.value : v.name`). -/
def idAssignName : AST → Option String
  | .id _ x => some x
  | .assign _ x _ => some x
  | _ => none

/-- A successful association-list lookup comes from a member pair. -/
theorem lookup_mem {α β : Type} [BEq α] [LawfulBEq α] {k : α} {v : β}
    {m : List (α × β)} (h : List.lookup k m = some v) : (k, v) ∈ m := by
  induction m with
  | nil => cases h
  | cons p m ih =>
      obtain ⟨a, b⟩ := p
      by_cases hk : k = a
      · subst hk
        simp [List.lookup] at h
        simp [h]
      · simp [List.lookup, beq_false_of_ne hk] at h
        simp [ih h]

/-- Every binding of the flat name table is below the frame size. -/
def frameBound (f : FunctionFrame) : Prop :=
  ∀ p ∈ f.nameMap, p.2 < f.frameSize

/-- A binding looked up in a `frameBound` frame is below the frame
size. -/
theorem frameBound_lookup {f : FunctionFrame} (hb : frameBound f) {n : String} {s : Nat}
    (h : List.lookup n f.nameMap = some s) : s < f.frameSize :=
  hb (n, s) (lookup_mem h)

mutual

/-- The identity tag of a subterm occurs among the tree's tags. -/
theorem ref_mem_refList {u t : AST} (h : u ∈ subtermList t) : u.ref ∈ refList t := by
  cases t <;>
    simp only [subtermList, refList, List.mem_cons, List.mem_append, List.mem_singleton,
      List.not_mem_nil, or_false] at h ⊢
  case number r v => subst h; rfl
  case id r v => subst h; rfl
  case not r t =>
      rcases h with rfl | h
      · left; rfl
      · exact Or.inr (ref_mem_refList h)
  case equal r l rt =>
      rcases h with rfl | (h | h)
      · left; rfl
      · exact Or.inr (Or.inl (ref_mem_refList h))
      · exact Or.inr (Or.inr (ref_mem_refList h))
  case notEqual r l rt =>
      rcases h with rfl | (h | h)
      · left; rfl
      · exact Or.inr (Or.inl (ref_mem_refList h))
      · exact Or.inr (Or.inr (ref_mem_refList h))
  case add r l rt =>
      rcases h with rfl | (h | h)
      · left; rfl
      · exact Or.inr (Or.inl (ref_mem_refList h))
      · exact Or.inr (Or.inr (ref_mem_refList h))
  case subtract r l rt =>
      rcases h with rfl | (h | h)
      · left; rfl
      · exact Or.inr (Or.inl (ref_mem_refList h))
      · exact Or.inr (Or.inr (ref_mem_refList h))
  case multiply r l rt =>
      rcases h with rfl | (h | h)
      · left; rfl
      · exact Or.inr (Or.inl (ref_mem_refList h))
      · exact Or.inr (Or.inr (ref_mem_refList h))
  case divide r l rt =>
      rcases h with rfl | (h | h)
      · left; rfl
      · exact Or.inr (Or.inl (ref_mem_refList h))
      · exact Or.inr (Or.inr (ref_mem_refList h))
  case call r c args =>
      rcases h with rfl | h
      · left; rfl
      · exact Or.inr (ref_mem_refListList h)
  case ret r t =>
      rcases h with rfl | h
      · left; rfl
      · exact Or.inr (ref_mem_refList h)
  case block r ss =>
      rcases h with rfl | h
      · left; rfl
      · exact Or.inr (ref_mem_refListList h)
  case ifS r c cs alt =>
      rcases h with rfl | ((h | h) | h)
      · left; rfl
      · exact Or.inr (Or.inl (Or.inl (ref_mem_refList h)))
      · exact Or.inr (Or.inl (Or.inr (ref_mem_refList h)))
      · exact Or.inr (Or.inr (ref_mem_refList h))
  case func r n ps b =>
      rcases h with rfl | h
      · left; rfl
      · exact Or.inr (ref_mem_refList h)
  case var r n v =>
      rcases h with rfl | h
      · left; rfl
      · exact Or.inr (ref_mem_refList h)
  case assign r n v =>
      rcases h with rfl | h
      · left; rfl
      · exact Or.inr (ref_mem_refList h)
  case whileS r c b =>
      rcases h with rfl | (h | h)
      · left; rfl
      · exact Or.inr (Or.inl (ref_mem_refList h))
      · exact Or.inr (Or.inr (ref_mem_refList h))
  case module r fs =>
      rcases h with rfl | h
      · left; rfl
      · exact Or.inr (ref_mem_refListList h)

/-- List version of `ref_mem_refList`. -/
theorem ref_mem_refListList {u : AST} {ts : List AST} (h : u ∈ subtermListList ts) :
    u.ref ∈ refListList ts := by
  cases ts with
  | nil => simp [subtermListList] at h
  | cons t ts =>
      simp only [subtermListList, refListList, List.mem_append] at h ⊢
      rcases h with h | h
      · exact Or.inl (ref_mem_refList h)
      · exact Or.inr (ref_mem_refListList h)

end

/-- Everything the single pre-order walk guarantees about one visited
subtree with tag set `refs` and subterm set `subs`, between the frame `f`
before the visit and the frame `f'` after it:

* `mono`: the slot count never decreases;
* `bound`: every name binding stays below the slot count;
* `nameLB`: an existing name binding is never lost and its slot never
  decreases;
* `idPreserve`: slot-map entries of nodes outside the subtree are
  untouched;
* `varRange`: every `Var` node of the subtree is allocated a slot in
  `[f.frameSize, f'.frameSize)`;
* `idLB`: every `Id`/`Assign` node of the subtree that names `x` is
  resolved to a slot no smaller than the binding `x` had before the
  visit. -/
structure VisitSpec (refs : List Nat) (subs : List AST) (f f' : FunctionFrame) : Prop where
  mono : f.frameSize ≤ f'.frameSize
  bound : frameBound f'
  nameLB : ∀ n s, List.lookup n f.nameMap = some s →
    ∃ s', List.lookup n f'.nameMap = some s' ∧ s ≤ s'
  idPreserve : ∀ r, r ∉ refs → List.lookup r f'.idMap = List.lookup r f.idMap
  varRange : ∀ rv x e, AST.var rv x e ∈ subs →
    ∃ s, List.lookup rv f'.idMap = some s ∧ f.frameSize ≤ s ∧ s < f'.frameSize
  idLB : ∀ x s₀, List.lookup x f.nameMap = some s₀ →
    ∀ u, u ∈ subs → idAssignName u = some x →
      ∃ s, List.lookup u.ref f'.idMap = some s ∧ s₀ ≤ s

/-- A visit that did nothing satisfies the spec with no subterms. -/
theorem VisitSpec.idle (refs : List Nat) (f : FunctionFrame) (hb : frameBound f) :
    VisitSpec refs [] f f where
  mono := le_rfl
  bound := hb
  nameLB := fun _ s h => ⟨s, h, le_rfl⟩
  idPreserve := fun _ _ => rfl
  varRange := fun _ _ _ h => absurd h (List.not_mem_nil _)
  idLB := fun _ _ _ _ h => absurd h (List.not_mem_nil _)

/-- The spec only depends on the tag and subterm sets up to
membership. -/
theorem VisitSpec.memCongr {refs refs' : List Nat} {subs subs' : List AST}
    {f f' : FunctionFrame}
    (hr : ∀ r, r ∈ refs' ↔ r ∈ refs) (hs : ∀ u, u ∈ subs' ↔ u ∈ subs)
    (h : VisitSpec refs subs f f') : VisitSpec refs' subs' f f' where
  mono := h.mono
  bound := h.bound
  nameLB := h.nameLB
  idPreserve := fun r hr' => h.idPreserve r (fun hmem => hr' ((hr r).mpr hmem))
  varRange := fun rv x e hmem => h.varRange rv x e ((hs _).mp hmem)
  idLB := fun x s₀ hx u hu hn => h.idLB x s₀ hx u ((hs u).mp hu) hn

/-- Sequential composition of two visited subtrees: the second walk must
not touch tags of the first. -/
theorem VisitSpec.seq {refs₁ refs₂ : List Nat} {subs₁ subs₂ : List AST}
    {f f₁ f₂ : FunctionFrame}
    (h₁ : VisitSpec refs₁ subs₁ f f₁) (h₂ : VisitSpec refs₂ subs₂ f₁ f₂)
    (hdisj : ∀ r, r ∈ refs₁ → r ∉ refs₂)
    (hsub₁ : ∀ u, u ∈ subs₁ → u.ref ∈ refs₁) :
    VisitSpec (refs₁ ++ refs₂) (subs₁ ++ subs₂) f f₂ where
  mono := le_trans h₁.mono h₂.mono
  bound := h₂.bound
  nameLB := by
    intro n s h
    obtain ⟨s₁, hs₁, hle₁⟩ := h₁.nameLB n s h
    obtain ⟨s₂, hs₂, hle₂⟩ := h₂.nameLB n s₁ hs₁
    exact ⟨s₂, hs₂, le_trans hle₁ hle₂⟩
  idPreserve := by
    intro r hr
    rw [List.mem_append] at hr
    push_neg at hr
    rw [h₂.idPreserve r hr.2, h₁.idPreserve r hr.1]
  varRange := by
    intro rv x e hmem
    rw [List.mem_append] at hmem
    rcases hmem with hmem | hmem
    · obtain ⟨s, hs, hlo, hhi⟩ := h₁.varRange rv x e hmem
      have hrv : rv ∈ refs₁ := hsub₁ _ hmem
      refine ⟨s, ?_, hlo, lt_of_lt_of_le hhi h₂.mono⟩
      rw [h₂.idPreserve rv (hdisj rv hrv)]
      exact hs
    · obtain ⟨s, hs, hlo, hhi⟩ := h₂.varRange rv x e hmem
      exact ⟨s, hs, le_trans h₁.mono hlo, hhi⟩
  idLB := by
    intro x s₀ hx u hu hn
    rw [List.mem_append] at hu
    rcases hu with hu | hu
    · obtain ⟨s, hs, hle⟩ := h₁.idLB x s₀ hx u hu hn
      have hru : u.ref ∈ refs₁ := hsub₁ _ hu
      refine ⟨s, ?_, hle⟩
      rw [h₂.idPreserve u.ref (hdisj _ hru)]
      exact hs
    · obtain ⟨s₁, hs₁, hle₁⟩ := h₁.nameLB x s₀ hx
      obtain ⟨s, hs, hle⟩ := h₂.idLB x s₁ hs₁ u hu hn
      exact ⟨s, hs, le_trans hle₁ hle⟩

/-- Adding the visited node itself (when it is not a `Var`, `Id` or
`Assign`) to the tag and subterm sets preserves the spec. -/
theorem VisitSpec.wrap {refs : List Nat} {subs : List AST} {f f' : FunctionFrame}
    (t : AST) (h : VisitSpec refs subs f f')
    (hself : idAssignName t = none)
    (hnotvar : ∀ rv x e, t ≠ AST.var rv x e) :
    VisitSpec (t.ref :: refs) (t :: subs) f f' where
  mono := h.mono
  bound := h.bound
  nameLB := h.nameLB
  idPreserve := fun r hr => h.idPreserve r (fun hmem => hr (List.mem_cons_of_mem _ hmem))
  varRange := by
    intro rv x e hmem
    rcases List.mem_cons.mp hmem with hmem | hmem
    · exact absurd hmem.symm (hnotvar rv x e)
    · exact h.varRange rv x e hmem
  idLB := by
    intro x s₀ hx u hu hn
    rcases List.mem_cons.mp hu with rfl | hu
    · rw [hself] at hn; cases hn
    · exact h.idLB x s₀ hx u hu hn

theorem visit_id_unfold (r : Nat) (x : String) (st : AnalysisState) :
    analysisVisit (.id r x) st =
      match st.currentFrame with
      | none => .error "TypeError"
      | some f => (f.mapLocal r x).bind fun f' => .ok { st with currentFrame := some f' } := rfl

theorem visit_not_unfold (r : Nat) (t : AST) (st : AnalysisState) :
    analysisVisit (.not r t) st = analysisVisit t st := rfl

theorem visit_equal_unfold (r : Nat) (l rt : AST) (st : AnalysisState) :
    analysisVisit (.equal r l rt) st =
      (analysisVisit l st).bind fun st₁ => analysisVisit rt st₁ := rfl

theorem visit_notEqual_unfold (r : Nat) (l rt : AST) (st : AnalysisState) :
    analysisVisit (.notEqual r l rt) st =
      (analysisVisit l st).bind fun st₁ => analysisVisit rt st₁ := rfl

theorem visit_add_unfold (r : Nat) (l rt : AST) (st : AnalysisState) :
    analysisVisit (.add r l rt) st =
      (analysisVisit l st).bind fun st₁ => analysisVisit rt st₁ := rfl

theorem visit_subtract_unfold (r : Nat) (l rt : AST) (st : AnalysisState) :
    analysisVisit (.subtract r l rt) st =
      (analysisVisit l st).bind fun st₁ => analysisVisit rt st₁ := rfl

theorem visit_multiply_unfold (r : Nat) (l rt : AST) (st : AnalysisState) :
    analysisVisit (.multiply r l rt) st =
      (analysisVisit l st).bind fun st₁ => analysisVisit rt st₁ := rfl

theorem visit_divide_unfold (r : Nat) (l rt : AST) (st : AnalysisState) :
    analysisVisit (.divide r l rt) st =
      (analysisVisit l st).bind fun st₁ => analysisVisit rt st₁ := rfl

theorem visit_call_unfold (r : Nat) (c : String) (args : List AST) (st : AnalysisState) :
    analysisVisit (.call r c args) st = analysisVisitList args st := rfl

theorem visit_ret_unfold (r : Nat) (t : AST) (st : AnalysisState) :
    analysisVisit (.ret r t) st = analysisVisit t st := rfl

theorem visit_block_unfold (r : Nat) (ss : List AST) (st : AnalysisState) :
    analysisVisit (.block r ss) st = analysisVisitList ss st := rfl

theorem visit_ifS_unfold (r : Nat) (c cs alt : AST) (st : AnalysisState) :
    analysisVisit (.ifS r c cs alt) st =
      (analysisVisit c st).bind fun st₁ =>
        (analysisVisit alt st₁).bind fun st₂ => analysisVisit cs st₂ := rfl

theorem visit_func_unfold (r : Nat) (name : String) (params : List String) (body : AST)
    (st : AnalysisState) :
    analysisVisit (.func r name params body) st =
      if (List.lookup name st.functionFrames).isSome then
        .error ("Redefinition of function " ++ name)
      else
        (addArgumentsFold params emptyFrame).bind fun fr =>
          (analysisVisit body { st with currentFrame := some fr }).bind fun st₁ =>
            .ok ⟨none, (name, st₁.currentFrame) :: st₁.functionFrames⟩ := rfl

theorem visit_var_unfold (r : Nat) (x : String) (v : AST) (st : AnalysisState) :
    analysisVisit (.var r x v) st =
      (analysisVisit v st).bind fun st₁ =>
        match st₁.currentFrame with
        | none => .error "TypeError"
        | some f => .ok { st₁ with currentFrame := some (f.addLocal r x) } := rfl

theorem visit_assign_unfold (r : Nat) (x : String) (v : AST) (st : AnalysisState) :
    analysisVisit (.assign r x v) st =
      (analysisVisit v st).bind fun st₁ =>
        match st₁.currentFrame with
        | none => .error "TypeError"
        | some f => (f.mapLocal r x).bind fun f' => .ok { st₁ with currentFrame := some f' } := rfl

theorem visit_whileS_unfold (r : Nat) (c b : AST) (st : AnalysisState) :
    analysisVisit (.whileS r c b) st =
      (analysisVisit c st).bind fun st₁ => analysisVisit b st₁ := rfl

theorem visit_module_unfold (r : Nat) (fs : List AST) (st : AnalysisState) :
    analysisVisit (.module r fs) st = analysisVisitList fs st := rfl

theorem visitList_cons_unfold (t : AST) (ts : List AST) (st : AnalysisState) :
    analysisVisitList (t :: ts) st =
      (analysisVisit t st).bind fun st₁ => analysisVisitList ts st₁ := rfl

/-- Spec of a lone `mapLocal` step resolving an `Id` or `Assign` node
`u` against the current flat name table. -/
theorem VisitSpec.mapLocalStep (u : AST) (x : String) (slot : Nat) (f : FunctionFrame)
    (hu : idAssignName u = some x)
    (hb : frameBound f) (hlk : List.lookup x f.nameMap = some slot)
    (hnotvar : ∀ rv y e, u ≠ AST.var rv y e) :
    VisitSpec [u.ref] [u] f { f with idMap := (u.ref, slot) :: f.idMap } where
  mono := le_rfl
  bound := hb
  nameLB := fun _ s h => ⟨s, h, le_rfl⟩
  idPreserve := by
    intro r hr
    have : r ≠ u.ref := by simpa using hr
    simp [List.lookup, beq_false_of_ne this]
  varRange := by
    intro rv y e hmem
    rw [List.mem_singleton] at hmem
    exact absurd hmem.symm (hnotvar rv y e)
  idLB := by
    intro y s₀ hy v hv hn
    rw [List.mem_singleton] at hv
    subst hv
    rw [hu] at hn
    injection hn with hn
    subst hn
    have heq : s₀ = slot := by rw [hy] at hlk; exact Option.some.inj hlk
    exact ⟨slot, by simp [List.lookup], le_of_eq heq⟩

/-- Spec of a `Var` node: the initializer's walk followed by
`addLocal`. -/
theorem VisitSpec.addLocalStep (r : Nat) (x : String) (e : AST)
    {refs : List Nat} {subs : List AST} {f f₁ : FunctionFrame}
    (h₁ : VisitSpec refs subs f f₁)
    (hre : r ∉ refs)
    (hsub : ∀ u, u ∈ subs → u.ref ∈ refs) :
    VisitSpec (r :: refs) (AST.var r x e :: subs) f (f₁.addLocal r x) where
  mono := le_trans h₁.mono (by simp [FunctionFrame.addLocal])
  bound := by
    intro p hp
    simp only [FunctionFrame.addLocal, List.mem_cons] at hp ⊢
    rcases hp with rfl | hp
    · omega
    · have := h₁.bound p hp
      omega
  nameLB := by
    intro n s h
    obtain ⟨s₁, hs₁, hle₁⟩ := h₁.nameLB n s h
    by_cases hn : n = x
    · subst hn
      refine ⟨f₁.frameSize, ?_, ?_⟩
      · simp [FunctionFrame.addLocal, List.lookup]
      · have := frameBound_lookup h₁.bound hs₁
        omega
    · refine ⟨s₁, ?_, hle₁⟩
      simp [FunctionFrame.addLocal, List.lookup, beq_false_of_ne hn]
      exact hs₁
  idPreserve := by
    intro r' hr'
    simp only [List.mem_cons, not_or] at hr'
    simp [FunctionFrame.addLocal, List.lookup, beq_false_of_ne hr'.1]
    exact h₁.idPreserve r' hr'.2
  varRange := by
    intro rv y e' hmem
    rcases List.mem_cons.mp hmem with heq | hmem
    · cases heq
      refine ⟨f₁.frameSize, ?_, h₁.mono, ?_⟩
      · simp [FunctionFrame.addLocal, List.lookup]
      · simp [FunctionFrame.addLocal]
    · obtain ⟨s, hs, hlo, hhi⟩ := h₁.varRange rv y e' hmem
      have hrv : rv ∈ refs := by
        have := hsub _ hmem
        simpa [AST.ref] using this
      refine ⟨s, ?_, hlo, ?_⟩
      · have hne : rv ≠ r := fun hc => hre (hc ▸ hrv)
        simp [FunctionFrame.addLocal, List.lookup, beq_false_of_ne hne]
        exact hs
      · simp only [FunctionFrame.addLocal]
        omega
  idLB := by
    intro y s₀ hy u hu hn
    rcases List.mem_cons.mp hu with rfl | hu
    · cases hn
    · obtain ⟨s, hs, hle⟩ := h₁.idLB y s₀ hy u hu hn
      have hru : u.ref ∈ refs := hsub _ hu
      have hne : u.ref ≠ r := fun hc => hre (hc ▸ hru)
      refine ⟨s, ?_, hle⟩
      simp [FunctionFrame.addLocal, List.lookup, beq_false_of_ne hne]
      exact hs

/-- Decomposition of the freshness list of a node with two child
lists. -/
theorem nodup_append_parts {l₁ l₂ : List Nat} (h : (l₁ ++ l₂).Nodup) :
    l₁.Nodup ∧ l₂.Nodup ∧ ∀ r ∈ l₁, r ∉ l₂ := by
  rw [List.nodup_append] at h
  exact ⟨h.1, h.2.1, h.2.2⟩

/-- Induction hypothesis shape of the walk spec for one tree. -/
def TreeIH (t : AST) : Prop :=
  ∀ (f : FunctionFrame) (F : List (String × Option FunctionFrame)) (st' : AnalysisState),
    funcFree t = true → (refList t).Nodup → frameBound f →
    analysisVisit t ⟨some f, F⟩ = .ok st' →
    ∃ f', st' = ⟨some f', F⟩ ∧ VisitSpec (refList t) (subtermList t) f f'

/-- Induction hypothesis shape of the walk spec for a list of trees. -/
def ListIH (ts : List AST) : Prop :=
  ∀ (f : FunctionFrame) (F : List (String × Option FunctionFrame)) (st' : AnalysisState),
    funcFreeList ts = true → (refListList ts).Nodup → frameBound f →
    analysisVisitList ts ⟨some f, F⟩ = .ok st' →
    ∃ f', st' = ⟨some f', F⟩ ∧ VisitSpec (refListList ts) (subtermListList ts) f f'

/-- Walk spec of a node with one visited child and no own binding
(`Not`, `Return`). -/
theorem visitSingle_spec (node : AST) {r : Nat} {c : AST}
    (hrefs : refList node = r :: refList c)
    (hsubs : subtermList node = node :: subtermList c)
    (hself : idAssignName node = none)
    (hnotvar : ∀ rv x e, node ≠ AST.var rv x e)
    (hrefnode : node.ref = r)
    (hunfold : ∀ st, analysisVisit node st = analysisVisit c st)
    (hffc : funcFree c = true) (ihc : TreeIH c)
    (f : FunctionFrame) (F : List (String × Option FunctionFrame)) (st' : AnalysisState)
    (hnd : (refList node).Nodup) (hb : frameBound f)
    (hok : analysisVisit node ⟨some f, F⟩ = .ok st') :
    ∃ f', st' = ⟨some f', F⟩ ∧ VisitSpec (refList node) (subtermList node) f f' := by
  rw [hunfold] at hok
  rw [hrefs] at hnd
  obtain ⟨f₁, rfl, spec₁⟩ := ihc f F st' hffc (List.nodup_cons.mp hnd).2 hb hok
  refine ⟨f₁, rfl, ?_⟩
  rw [hrefs, hsubs]
  have hs := spec₁.wrap node hself hnotvar
  rw [hrefnode] at hs
  exact hs

/-- Walk spec of a node with two children visited left to right and no
own binding (the binary operators and `While`). -/
theorem visitSeq2_spec (node : AST) {r : Nat} {l rt : AST}
    (hrefs : refList node = r :: (refList l ++ refList rt))
    (hsubs : subtermList node = node :: (subtermList l ++ subtermList rt))
    (hself : idAssignName node = none)
    (hnotvar : ∀ rv x e, node ≠ AST.var rv x e)
    (hrefnode : node.ref = r)
    (hunfold : ∀ st, analysisVisit node st =
      (analysisVisit l st).bind fun st₁ => analysisVisit rt st₁)
    (hffl : funcFree l = true) (hffr : funcFree rt = true)
    (ihl : TreeIH l) (ihr : TreeIH rt)
    (f : FunctionFrame) (F : List (String × Option FunctionFrame)) (st' : AnalysisState)
    (hnd : (refList node).Nodup) (hb : frameBound f)
    (hok : analysisVisit node ⟨some f, F⟩ = .ok st') :
    ∃ f', st' = ⟨some f', F⟩ ∧ VisitSpec (refList node) (subtermList node) f f' := by
  rw [hunfold] at hok
  rw [hrefs] at hnd
  obtain ⟨hndl, hndr, hdisj⟩ := nodup_append_parts (List.nodup_cons.mp hnd).2
  cases h₁ : analysisVisit l ⟨some f, F⟩ with
  | error e => rw [h₁] at hok; simp [Except.bind] at hok
  | ok st₁ =>
      rw [h₁] at hok
      simp only [Except.bind] at hok
      obtain ⟨f₁, rfl, spec₁⟩ := ihl f F st₁ hffl hndl hb h₁
      obtain ⟨f₂, rfl, spec₂⟩ := ihr f₁ F st' hffr hndr spec₁.bound hok
      refine ⟨f₂, rfl, ?_⟩
      rw [hrefs, hsubs]
      have hs := (spec₁.seq spec₂ hdisj fun u hu => ref_mem_refList hu).wrap node hself hnotvar
      rw [hrefnode] at hs
      exact hs

/-- Walk spec of a node visiting a child list (`Call`, `Block`). -/
theorem visitListNode_spec (node : AST) {r : Nat} {ts : List AST}
    (hrefs : refList node = r :: refListList ts)
    (hsubs : subtermList node = node :: subtermListList ts)
    (hself : idAssignName node = none)
    (hnotvar : ∀ rv x e, node ≠ AST.var rv x e)
    (hrefnode : node.ref = r)
    (hunfold : ∀ st, analysisVisit node st = analysisVisitList ts st)
    (hffts : funcFreeList ts = true) (ihts : ListIH ts)
    (f : FunctionFrame) (F : List (String × Option FunctionFrame)) (st' : AnalysisState)
    (hnd : (refList node).Nodup) (hb : frameBound f)
    (hok : analysisVisit node ⟨some f, F⟩ = .ok st') :
    ∃ f', st' = ⟨some f', F⟩ ∧ VisitSpec (refList node) (subtermList node) f f' := by
  rw [hunfold] at hok
  rw [hrefs] at hnd
  obtain ⟨f₁, rfl, spec₁⟩ := ihts f F st' hffts (List.nodup_cons.mp hnd).2 hb hok
  refine ⟨f₁, rfl, ?_⟩
  rw [hrefs, hsubs]
  have hs := spec₁.wrap node hself hnotvar
  rw [hrefnode] at hs
  exact hs

mutual

/-- Master lemma of the frame-analysis walk: visiting a function-free
tree whose node identities are distinct, from a bounded frame, either
fails or produces a frame related to the starting one by `VisitSpec`
(and leaves the rest of the analysis state untouched). -/
theorem analysisVisit_spec (t : AST) : TreeIH t := by
  cases t with
  | number r v =>
      intro f F st' _ _ hb hok
      have heq := Except.ok.inj hok
      refine ⟨f, heq.symm, ?_⟩
      exact (VisitSpec.idle [] f hb).wrap (.number r v) rfl (fun _ _ _ h => nomatch h)
  | id r x =>
      intro f F st' _ _ hb hok
      cases hlk : List.lookup x f.nameMap with
      | none =>
          have hbad : analysisVisit (.id r x) ⟨some f, F⟩ = .error ("Undefined variable " ++ x) := by
            rw [visit_id_unfold]
            simp [FunctionFrame.mapLocal, hlk, Except.bind]
          rw [hbad] at hok
          cases hok
      | some slot =>
          have hgood : analysisVisit (.id r x) ⟨some f, F⟩ =
              .ok ⟨some { f with idMap := (r, slot) :: f.idMap }, F⟩ := by
            rw [visit_id_unfold]
            simp [FunctionFrame.mapLocal, hlk, Except.bind]
          rw [hgood] at hok
          refine ⟨_, (Except.ok.inj hok).symm, ?_⟩
          exact VisitSpec.mapLocalStep (.id r x) x slot f rfl hb hlk (fun _ _ _ h => nomatch h)
  | not r c =>
      intro f F st' hff hnd hb hok
      exact visitSingle_spec (.not r c) rfl rfl rfl (fun _ _ _ h => nomatch h) rfl
        (fun _ => rfl) hff (analysisVisit_spec c) f F st' hnd hb hok
  | equal r l rt =>
      intro f F st' hff hnd hb hok
      have hff' : (funcFree l && funcFree rt) = true := hff
      rw [Bool.and_eq_true] at hff'
      exact visitSeq2_spec (.equal r l rt) rfl rfl rfl (fun _ _ _ h => nomatch h) rfl (fun _ => rfl)
        hff'.1 hff'.2 (analysisVisit_spec l) (analysisVisit_spec rt) f F st' hnd hb hok
  | notEqual r l rt =>
      intro f F st' hff hnd hb hok
      have hff' : (funcFree l && funcFree rt) = true := hff
      rw [Bool.and_eq_true] at hff'
      exact visitSeq2_spec (.notEqual r l rt) rfl rfl rfl (fun _ _ _ h => nomatch h) rfl (fun _ => rfl)
        hff'.1 hff'.2 (analysisVisit_spec l) (analysisVisit_spec rt) f F st' hnd hb hok
  | add r l rt =>
      intro f F st' hff hnd hb hok
      have hff' : (funcFree l && funcFree rt) = true := hff
      rw [Bool.and_eq_true] at hff'
      exact visitSeq2_spec (.add r l rt) rfl rfl rfl (fun _ _ _ h => nomatch h) rfl (fun _ => rfl)
        hff'.1 hff'.2 (analysisVisit_spec l) (analysisVisit_spec rt) f F st' hnd hb hok
  | subtract r l rt =>
      intro f F st' hff hnd hb hok
      have hff' : (funcFree l && funcFree rt) = true := hff
      rw [Bool.and_eq_true] at hff'
      exact visitSeq2_spec (.subtract r l rt) rfl rfl rfl (fun _ _ _ h => nomatch h) rfl (fun _ => rfl)
        hff'.1 hff'.2 (analysisVisit_spec l) (analysisVisit_spec rt) f F st' hnd hb hok
  | multiply r l rt =>
      intro f F st' hff hnd hb hok
      have hff' : (funcFree l && funcFree rt) = true := hff
      rw [Bool.and_eq_true] at hff'
      exact visitSeq2_spec (.multiply r l rt) rfl rfl rfl (fun _ _ _ h => nomatch h) rfl (fun _ => rfl)
        hff'.1 hff'.2 (analysisVisit_spec l) (analysisVisit_spec rt) f F st' hnd hb hok
  | divide r l rt =>
      intro f F st' hff hnd hb hok
      have hff' : (funcFree l && funcFree rt) = true := hff
      rw [Bool.and_eq_true] at hff'
      exact visitSeq2_spec (.divide r l rt) rfl rfl rfl (fun _ _ _ h => nomatch h) rfl (fun _ => rfl)
        hff'.1 hff'.2 (analysisVisit_spec l) (analysisVisit_spec rt) f F st' hnd hb hok
  | call r c args =>
      intro f F st' hff hnd hb hok
      exact visitListNode_spec (.call r c args) rfl rfl rfl (fun _ _ _ h => nomatch h) rfl (fun _ => rfl)
        hff (analysisVisitList_spec args) f F st' hnd hb hok
  | ret r c =>
      intro f F st' hff hnd hb hok
      exact visitSingle_spec (.ret r c) rfl rfl rfl (fun _ _ _ h => nomatch h) rfl
        (fun _ => rfl) hff (analysisVisit_spec c) f F st' hnd hb hok
  | block r ss =>
      intro f F st' hff hnd hb hok
      exact visitListNode_spec (.block r ss) rfl rfl rfl (fun _ _ _ h => nomatch h) rfl (fun _ => rfl)
        hff (analysisVisitList_spec ss) f F st' hnd hb hok
  | ifS r c cs alt =>
      intro f F st' hff hnd hb hok
      have hff' : (funcFree c && funcFree cs && funcFree alt) = true := hff
      rw [Bool.and_eq_true, Bool.and_eq_true] at hff'
      have hnd' : (r :: ((refList c ++ refList cs) ++ refList alt)).Nodup := hnd
      obtain ⟨hndccs, hnda, hdisj1⟩ := nodup_append_parts (List.nodup_cons.mp hnd').2
      obtain ⟨hndc, hndcs, hdisj2⟩ := nodup_append_parts hndccs
      rw [visit_ifS_unfold] at hok
      cases h₁ : analysisVisit c ⟨some f, F⟩ with
      | error e => rw [h₁] at hok; simp [Except.bind] at hok
      | ok st₁ =>
          rw [h₁] at hok
          simp only [Except.bind] at hok
          obtain ⟨f₁, rfl, spec₁⟩ := analysisVisit_spec c f F st₁ hff'.1.1 hndc hb h₁
          cases h₂ : analysisVisit alt ⟨some f₁, F⟩ with
          | error e => rw [h₂] at hok; simp [Except.bind] at hok
          | ok st₂ =>
              rw [h₂] at hok
              simp only [Except.bind] at hok
              obtain ⟨f₂, rfl, spec₂⟩ :=
                analysisVisit_spec alt f₁ F st₂ hff'.2 hnda spec₁.bound h₂
              obtain ⟨f₃, rfl, spec₃⟩ :=
                analysisVisit_spec cs f₂ F st' hff'.1.2 hndcs spec₂.bound hok
              refine ⟨f₃, rfl, ?_⟩
              have hca : ∀ ρ ∈ refList c, ρ ∉ refList alt := by
                intro ρ hρ
                exact hdisj1 ρ (List.mem_append_left _ hρ)
              have hs12 := spec₁.seq spec₂ hca fun u hu => ref_mem_refList hu
              have hcacs : ∀ ρ ∈ refList c ++ refList alt, ρ ∉ refList cs := by
                intro ρ hρ hcs
                rcases List.mem_append.mp hρ with hρ | hρ
                · exact hdisj2 ρ hρ hcs
                · exact hdisj1 ρ (List.mem_append_right _ hcs) hρ
              have hs123 := hs12.seq spec₃ hcacs fun u hu => by
                rcases List.mem_append.mp hu with hu | hu
                · exact List.mem_append_left _ (ref_mem_refList hu)
                · exact List.mem_append_right _ (ref_mem_refList hu)
              have hs : VisitSpec ((refList c ++ refList cs) ++ refList alt)
                  (subtermList c ++ subtermList cs ++ subtermList alt) _ _ :=
                hs123.memCongr
                  (by intro ρ; simp [List.mem_append]; tauto)
                  (by intro u; simp [List.mem_append]; tauto)
              have hw := hs.wrap (.ifS r c cs alt) rfl (fun _ _ _ h => nomatch h)
              exact hw
  | func r name params body =>
      intro f F st' hff hnd hb hok
      have hff' : (false : Bool) = true := hff
      cases hff'
  | var r x v =>
      intro f F st' hff hnd hb hok
      have hff' : funcFree v = true := hff
      have hnd' : (r :: refList v).Nodup := hnd
      obtain ⟨hrv, hndv⟩ := List.nodup_cons.mp hnd'
      rw [visit_var_unfold] at hok
      cases h₁ : analysisVisit v ⟨some f, F⟩ with
      | error e => rw [h₁] at hok; simp [Except.bind] at hok
      | ok st₁ =>
          rw [h₁] at hok
          simp only [Except.bind] at hok
          obtain ⟨f₁, rfl, spec₁⟩ := analysisVisit_spec v f F st₁ hff' hndv hb h₁
          refine ⟨f₁.addLocal r x, (Except.ok.inj hok).symm, ?_⟩
          exact VisitSpec.addLocalStep r x v spec₁ hrv fun u hu => ref_mem_refList hu
  | assign r x v =>
      intro f F st' hff hnd hb hok
      have hff' : funcFree v = true := hff
      have hnd' : (r :: refList v).Nodup := hnd
      obtain ⟨hrv, hndv⟩ := List.nodup_cons.mp hnd'
      rw [visit_assign_unfold] at hok
      cases h₁ : analysisVisit v ⟨some f, F⟩ with
      | error e => rw [h₁] at hok; simp [Except.bind] at hok
      | ok st₁ =>
          rw [h₁] at hok
          simp only [Except.bind] at hok
          obtain ⟨f₁, rfl, spec₁⟩ := analysisVisit_spec v f F st₁ hff' hndv hb h₁
          have hok' : (f₁.mapLocal r x).bind
              (fun f' => (.ok ⟨some f', F⟩ : Except String AnalysisState)) = .ok st' := hok
          cases hlk : List.lookup x f₁.nameMap with
          | none =>
              rw [show f₁.mapLocal r x = .error ("Undefined variable " ++ x) from by
                simp [FunctionFrame.mapLocal, hlk]] at hok'
              simp [Except.bind] at hok'
          | some slot =>
              rw [show f₁.mapLocal r x = .ok { f₁ with idMap := (r, slot) :: f₁.idMap } from by
                simp [FunctionFrame.mapLocal, hlk]] at hok'
              simp only [Except.bind] at hok'
              refine ⟨_, (Except.ok.inj hok').symm, ?_⟩
              have hstep := VisitSpec.mapLocalStep (.assign r x v) x slot f₁ rfl
                spec₁.bound hlk (fun _ _ _ h => nomatch h)
              have hdisj : ∀ ρ ∈ refList v, ρ ∉ [(AST.assign r x v).ref] := by
                intro ρ hρ hmem
                rw [List.mem_singleton] at hmem
                subst hmem
                exact hrv hρ
              have hs := spec₁.seq hstep hdisj fun u hu => ref_mem_refList hu
              exact hs.memCongr
                (by intro ρ; simp [refList, List.mem_append, AST.ref]; tauto)
                (by intro u; simp [subtermList, List.mem_append]; tauto)
  | whileS r c b =>
      intro f F st' hff hnd hb hok
      have hff' : (funcFree c && funcFree b) = true := hff
      rw [Bool.and_eq_true] at hff'
      exact visitSeq2_spec (.whileS r c b) rfl rfl rfl (fun _ _ _ h => nomatch h) rfl (fun _ => rfl)
        hff'.1 hff'.2 (analysisVisit_spec c) (analysisVisit_spec b) f F st' hnd hb hok
  | module r fs =>
      intro f F st' hff hnd hb hok
      have hff' : (false : Bool) = true := hff
      cases hff'

/-- List version of `analysisVisit_spec`. -/
theorem analysisVisitList_spec (ts : List AST) : ListIH ts := by
  cases ts with
  | nil =>
      intro f F st' _ _ hb hok
      exact ⟨f, (Except.ok.inj hok).symm, VisitSpec.idle [] f hb⟩
  | cons t ts =>
      intro f F st' hff hnd hb hok
      have hff' : (funcFree t && funcFreeList ts) = true := hff
      rw [Bool.and_eq_true] at hff'
      have hnd' : (refList t ++ refListList ts).Nodup := hnd
      obtain ⟨hndt, hndts, hdisj⟩ := nodup_append_parts hnd'
      rw [visitList_cons_unfold] at hok
      cases h₁ : analysisVisit t ⟨some f, F⟩ with
      | error e => rw [h₁] at hok; simp [Except.bind] at hok
      | ok st₁ =>
          rw [h₁] at hok
          simp only [Except.bind] at hok
          obtain ⟨f₁, rfl, spec₁⟩ := analysisVisit_spec t f F st₁ hff'.1 hndt hb h₁
          obtain ⟨f₂, rfl, spec₂⟩ := analysisVisitList_spec ts f₁ F st' hff'.2 hndts spec₁.bound hok
          exact ⟨f₂, rfl, spec₁.seq spec₂ hdisj fun u hu => ref_mem_refList hu⟩

end

/-- Module `function f(p) { if (p) { var c = 1; } else { var a = 2; } }`
with distinct identity tags. -/
def c2Module : AST :=
  .module 100 [.func 0 "f" ["p"] (.block 1 [.ifS 2 (.id 3 "p")
    (.block 4 [.var 5 "c" (.number 6 1)]) (.block 7 [.var 8 "a" (.number 9 2)])])]

/-- C2, counterexample: in `c2Module` the `Var` inside the consequence
branch (tag 5) is allocated slot 2 while the `Var` inside the alternative
branch (tag 8) is allocated slot 1 — the walk processes the alternative
*before* the consequence (`visitIf` visits `node.alternative` first), so
the claimed consequence-before-alternative order is false at this
input. -/
theorem c2_if_order_refutes :
    slotOf c2Module "f" 5 = some 2 ∧ slotOf c2Module "f" 8 = some 1 ∧
      ¬ (∃ sc sa, slotOf c2Module "f" 5 = some sc ∧ slotOf c2Module "f" 8 = some sa ∧
          sc < sa) := by
  refine ⟨rfl, rfl, ?_⟩
  rintro ⟨sc, sa, hc, ha, hlt⟩
  have h2 : 2 = sc := Option.some.inj hc
  have h1 : 1 = sa := Option.some.inj ha
  omega

/-- Registering a fresh, duplicate-free parameter list assigns slots
`base, base+1, …` in declaration order and touches nothing else. -/
theorem addArgumentsFold_spec (params : List String) : ∀ (f : FunctionFrame),
    params.Nodup → (∀ p ∈ params, List.lookup p f.nameMap = none) →
    ∃ f', addArgumentsFold params f = .ok f' ∧
      f'.frameSize = f.frameSize + params.length ∧
      (∀ i p, params.get? i = some p → List.lookup p f'.nameMap = some (f.frameSize + i)) ∧
      (∀ n, n ∉ params → List.lookup n f'.nameMap = List.lookup n f.nameMap) ∧
      f'.idMap = f.idMap := by
  induction params with
  | nil =>
      intro f _ _
      exact ⟨f, rfl, by simp, by intro i p h; simp at h, fun _ _ => rfl, rfl⟩
  | cons p ps ih =>
      intro f hnd hfresh
      have hp : List.lookup p f.nameMap = none := hfresh p (List.mem_cons_self p ps)
      obtain ⟨hndp, hndps⟩ := List.nodup_cons.mp hnd
      have hstep : f.addArgument p =
          .ok ⟨f.idMap, (p, f.frameSize) :: f.nameMap, f.frameSize + 1⟩ := by
        simp [FunctionFrame.addArgument, hp]
      have hfresh₁ : ∀ q ∈ ps,
          List.lookup q (⟨f.idMap, (p, f.frameSize) :: f.nameMap, f.frameSize + 1⟩ :
            FunctionFrame).nameMap = none := by
        intro q hq
        have hqp : q ≠ p := fun hc => hndp (hc ▸ hq)
        show List.lookup q ((p, f.frameSize) :: f.nameMap) = none
        rw [show List.lookup q ((p, f.frameSize) :: f.nameMap) = List.lookup q f.nameMap from by
          simp [List.lookup, beq_false_of_ne hqp]]
        exact hfresh q (List.mem_cons_of_mem _ hq)
      obtain ⟨f', hok, hfs, hget, hpres, hid⟩ :=
        ih ⟨f.idMap, (p, f.frameSize) :: f.nameMap, f.frameSize + 1⟩ hndps hfresh₁
      refine ⟨f', ?_, ?_, ?_, ?_, hid⟩
      · show (f.addArgument p).bind (addArgumentsFold ps) = .ok f'
        rw [hstep]
        simpa [Except.bind] using hok
      · rw [hfs]
        show f.frameSize + 1 + ps.length = f.frameSize + (ps.length + 1)
        omega
      · intro i q hq
        cases i with
        | zero =>
            simp only [List.get?] at hq
            injection hq with hq
            subst hq
            rw [hpres _ hndp]
            simp [List.lookup]
        | succ i =>
            simp only [List.get?] at hq
            have hgi := hget i q hq
            rw [hgi]
            congr 1
            show f.frameSize + 1 + i = f.frameSize + (i + 1)
            omega
      · intro n hn
        rw [List.mem_cons] at hn
        push_neg at hn
        rw [hpres n hn.2]
        simp [List.lookup, beq_false_of_ne hn.1]

/-- C2, amended: the analysis is a single walk per function in which the
parameters are registered first, receiving slots 0, 1, 2, … in
declaration order; the body is then walked pre-order except that each
`If` statement's *alternative* branch is processed before its
consequence branch, so every slot allocated to a `Var` in the
alternative is strictly smaller than every slot allocated to a `Var` in
the consequence. -/
theorem c2_walk_order :
    (∀ (params : List String), params.Nodup →
      ∃ f', addArgumentsFold params emptyFrame = .ok f' ∧
        f'.frameSize = params.length ∧
        ∀ i p, params.get? i = some p → List.lookup p f'.nameMap = some i) ∧
    (∀ (r : Nat) (c cs alt : AST) (f : FunctionFrame)
        (F : List (String × Option FunctionFrame)) (st' : AnalysisState),
      funcFree (AST.ifS r c cs alt) = true →
      (refList (AST.ifS r c cs alt)).Nodup →
      frameBound f →
      analysisVisit (AST.ifS r c cs alt) ⟨some f, F⟩ = .ok st' →
      ∀ ra y ea, AST.var ra y ea ∈ subtermList alt →
      ∀ rc z ec, AST.var rc z ec ∈ subtermList cs →
      ∃ f' sa sc, st' = ⟨some f', F⟩ ∧
        List.lookup ra f'.idMap = some sa ∧
        List.lookup rc f'.idMap = some sc ∧
        sa < sc) := by
  constructor
  · intro params hnd
    obtain ⟨f', hok, hfs, hget, _, _⟩ :=
      addArgumentsFold_spec params emptyFrame hnd (fun _ _ => rfl)
    exact ⟨f', hok, by simpa [emptyFrame] using hfs,
      fun i p hp => by simpa [emptyFrame] using hget i p hp⟩
  · intro r c cs alt f F st' hff hnd hb hok ra y ea hra rc z ec hrc
    have hff' : (funcFree c && funcFree cs && funcFree alt) = true := hff
    rw [Bool.and_eq_true, Bool.and_eq_true] at hff'
    have hnd' : (r :: ((refList c ++ refList cs) ++ refList alt)).Nodup := hnd
    obtain ⟨hndccs, hnda, hdisj1⟩ := nodup_append_parts (List.nodup_cons.mp hnd').2
    obtain ⟨hndc, hndcs, hdisj2⟩ := nodup_append_parts hndccs
    rw [visit_ifS_unfold] at hok
    cases h₁ : analysisVisit c ⟨some f, F⟩ with
    | error e => rw [h₁] at hok; simp [Except.bind] at hok
    | ok st₁ =>
        rw [h₁] at hok
        simp only [Except.bind] at hok
        obtain ⟨f₁, rfl, spec₁⟩ := analysisVisit_spec c f F st₁ hff'.1.1 hndc hb h₁
        cases h₂ : analysisVisit alt ⟨some f₁, F⟩ with
        | error e => rw [h₂] at hok; simp [Except.bind] at hok
        | ok st₂ =>
            rw [h₂] at hok
            simp only [Except.bind] at hok
            obtain ⟨f₂, rfl, spec₂⟩ :=
              analysisVisit_spec alt f₁ F st₂ hff'.2 hnda spec₁.bound h₂
            obtain ⟨f₃, rfl, spec₃⟩ :=
              analysisVisit_spec cs f₂ F st' hff'.1.2 hndcs spec₂.bound hok
            obtain ⟨sa, hsa, hsalo, hsahi⟩ := spec₂.varRange ra y ea hra
            obtain ⟨sc, hsc, hsclo, hschi⟩ := spec₃.varRange rc z ec hrc
            have hmem : ra ∈ refList alt := by
              have := ref_mem_refList hra
              simpa [AST.ref] using this
            have hnotin : ra ∉ refList cs := by
              intro hin
              exact hdisj1 ra (List.mem_append_right _ hin) hmem
            refine ⟨f₃, sa, sc, rfl, ?_, hsc, ?_⟩
            · rw [spec₃.idPreserve ra hnotin]
              exact hsa
            · omega

/-- Witness for `c2_walk_order`: parameters `["a", "b"]` get slots 0 and
1, and in `if (1) { var c = 1; } else { var a = 2; }` walked from the
empty frame the alternative's `Var` (tag 8) gets a smaller slot than the
consequence's `Var` (tag 5). -/
theorem c2_walk_order_witness :
    (∃ f', addArgumentsFold ["a", "b"] emptyFrame = .ok f' ∧
      f'.frameSize = 2 ∧
      ∀ i p, ["a", "b"].get? i = some p → List.lookup p f'.nameMap = some i) ∧
    (∃ f' sa sc, (AnalysisState.mk
        (some ⟨[(5, 1), (8, 0)], [("c", 1), ("a", 0)], 2⟩) [] : AnalysisState)
          = ⟨some f', []⟩ ∧
      List.lookup 8 f'.idMap = some sa ∧
      List.lookup 5 f'.idMap = some sc ∧
      sa < sc) := by
  constructor
  · have := c2_walk_order.1 ["a", "b"] (by simp)
    simpa using this
  · exact c2_walk_order.2 2 (.number 3 1)
      (.block 4 [.var 5 "c" (.number 6 1)]) (.block 7 [.var 8 "a" (.number 9 2)])
      emptyFrame [] _ rfl (by decide) (fun p hp => absurd hp (List.not_mem_nil p)) rfl
      8 "a" (.number 9 2) (by simp [subtermList, subtermListList])
      5 "c" (.number 6 1) (by simp [subtermList, subtermListList])

/-- C3: a `VarDecl` first resolves its initializer against the bindings
visible before the declaration, then allocates the next unused slot
(incrementing `frameSize`) and overwrites the flat name-to-slot binding
(part one); and once the flat table binds `x` to the inner slot, every
subsequent `Id`/`Assign` reference to `x` in the rest of the function
resolves to a slot at least that large — never to any smaller,
shadowed outer slot (part two). -/
theorem c3_var_shadowing :
    (∀ (r : Nat) (x : String) (e : AST) (f : FunctionFrame)
        (F : List (String × Option FunctionFrame)) (st' : AnalysisState),
      analysisVisit (.var r x e) ⟨some f, F⟩ = .ok st' →
      ∃ st₁ f₁, analysisVisit e ⟨some f, F⟩ = .ok st₁ ∧ st₁.currentFrame = some f₁ ∧
        st' = { st₁ with currentFrame := some (f₁.addLocal r x) } ∧
        (f₁.addLocal r x).frameSize = f₁.frameSize + 1 ∧
        List.lookup x (f₁.addLocal r x).nameMap = some f₁.frameSize ∧
        List.lookup r (f₁.addLocal r x).idMap = some f₁.frameSize) ∧
    (∀ (t : AST) (f : FunctionFrame) (F : List (String × Option FunctionFrame))
        (st' : AnalysisState) (x : String) (s₀ : Nat),
      funcFree t = true → (refList t).Nodup → frameBound f →
      List.lookup x f.nameMap = some s₀ →
      analysisVisit t ⟨some f, F⟩ = .ok st' →
      ∀ u, u ∈ subtermList t → idAssignName u = some x →
        ∃ f₃ s, st'.currentFrame = some f₃ ∧
          List.lookup u.ref f₃.idMap = some s ∧ s₀ ≤ s ∧
          ∀ souter, souter < s₀ → s ≠ souter) := by
  constructor
  · intro r x e f F st' hok
    rw [visit_var_unfold] at hok
    cases h₁ : analysisVisit e ⟨some f, F⟩ with
    | error er => rw [h₁] at hok; simp [Except.bind] at hok
    | ok st₁ =>
        rw [h₁] at hok
        simp only [Except.bind] at hok
        cases hcf : st₁.currentFrame with
        | none => rw [hcf] at hok; cases hok
        | some f₁ =>
            rw [hcf] at hok
            refine ⟨st₁, f₁, rfl, hcf, (Except.ok.inj hok).symm, rfl, ?_, ?_⟩
            · simp [FunctionFrame.addLocal, List.lookup]
            · simp [FunctionFrame.addLocal, List.lookup]
  · intro t f F st' x s₀ hff hnd hb hx hok u hu hn
    obtain ⟨f', rfl, spec⟩ := analysisVisit_spec t f F st' hff hnd hb hok
    obtain ⟨s, hs, hle⟩ := spec.idLB x s₀ hx u hu hn
    exact ⟨f', s, rfl, hs, hle, fun souter hlt heq => by omega⟩

/-- Witness for `c3_var_shadowing`: part one on `var x = 1;` from the
empty frame, and part two on `print(x)` walked from the frame of
`var x = 1; { var x = 2; }`, where the flat table binds `x` to the inner
slot 1 — the reference (tag 8) resolves to slot 1, not the shadowed
outer slot 0. -/
theorem c3_var_shadowing_witness :
    (∃ st₁ f₁, analysisVisit (.number 3 1) ⟨some emptyFrame, []⟩ = .ok st₁ ∧
      st₁.currentFrame = some f₁ ∧
      (AnalysisState.mk (some ⟨[(2, 0)], [("x", 0)], 1⟩) [] : AnalysisState)
        = { st₁ with currentFrame := some (f₁.addLocal 2 "x") } ∧
      (f₁.addLocal 2 "x").frameSize = f₁.frameSize + 1 ∧
      List.lookup "x" (f₁.addLocal 2 "x").nameMap = some f₁.frameSize ∧
      List.lookup 2 (f₁.addLocal 2 "x").idMap = some f₁.frameSize) ∧
    (∃ f₃ s, (AnalysisState.mk
        (some ⟨[(8, 1), (2, 0), (5, 1)], [("x", 1), ("x", 0)], 2⟩) []
          : AnalysisState).currentFrame = some f₃ ∧
      List.lookup (AST.id 8 "x").ref f₃.idMap = some s ∧ 1 ≤ s ∧
      ∀ souter, souter < 1 → s ≠ souter) :=
  ⟨c3_var_shadowing.1 2 "x" (.number 3 1) emptyFrame [] _ rfl,
   c3_var_shadowing.2 (.call 7 "print" [.id 8 "x"])
     ⟨[(2, 0), (5, 1)], [("x", 1), ("x", 0)], 2⟩ [] _ "x" 1
     (by decide) (by decide) (by unfold frameBound; decide) rfl rfl
     (.id 8 "x") (by simp [subtermList, subtermListList]) rfl⟩

mutual

/-- Modelled from the claim's error conditions: the set of names bound
"so far" during the same walk the analysis performs (parameters, then
pre-order with the alternative of an `If` before its consequence), with
`none` signalling a reference to a name with no current binding.  This
checker carries no slot numbers at all — it is the specification-side
statement of "undefined variable reference". -/
def bodyCheck : AST → List String → Option (List String)
  | .number _ _, env => some env
  | .id _ x, env => if x ∈ env then some env else none
  | .not _ t, env => bodyCheck t env
  | .equal _ l rt, env => (bodyCheck l env).bind fun e => bodyCheck rt e
  | .notEqual _ l rt, env => (bodyCheck l env).bind fun e => bodyCheck rt e
  | .add _ l rt, env => (bodyCheck l env).bind fun e => bodyCheck rt e
  | .subtract _ l rt, env => (bodyCheck l env).bind fun e => bodyCheck rt e
  | .multiply _ l rt, env => (bodyCheck l env).bind fun e => bodyCheck rt e
  | .divide _ l rt, env => (bodyCheck l env).bind fun e => bodyCheck rt e
  | .call _ _ args, env => bodyCheckList args env
  | .ret _ t, env => bodyCheck t env
  | .block _ ss, env => bodyCheckList ss env
  | .ifS _ c cs alt, env =>
      (bodyCheck c env).bind fun e₁ => (bodyCheck alt e₁).bind fun e₂ => bodyCheck cs e₂
  | .func _ _ _ _, _ => none
  | .var _ x v, env => (bodyCheck v env).map fun e => x :: e
  | .assign _ x v, env => (bodyCheck v env).bind fun e => if x ∈ e then some e else none
  | .whileS _ c b, env => (bodyCheck c env).bind fun e => bodyCheck b e
  | .module _ _, _ => none

/-- List version of `bodyCheck`. -/
def bodyCheckList : List AST → List String → Option (List String)
  | [], env => some env
  | t :: ts, env => (bodyCheck t env).bind fun e => bodyCheckList ts e

end

/-- The flat name table binds exactly the names of the checker's
environment. -/
def envAgree (f : FunctionFrame) (env : List String) : Prop :=
  ∀ n, (List.lookup n f.nameMap).isSome ↔ n ∈ env

/-- Induction hypothesis of the body-level correspondence: on a
function-free tree, the walk and the checker agree — both succeed (with
agreeing bindings) or both fail, the walk with an
"Undefined variable" error. -/
def BCIH (t : AST) : Prop :=
  ∀ (f : FunctionFrame) (F : List (String × Option FunctionFrame)) (env : List String),
    funcFree t = true → envAgree f env →
    (∃ f' env', analysisVisit t ⟨some f, F⟩ = .ok ⟨some f', F⟩ ∧
      bodyCheck t env = some env' ∧ envAgree f' env')
    ∨ (∃ n, analysisVisit t ⟨some f, F⟩ = .error ("Undefined variable " ++ n) ∧
        bodyCheck t env = none)

/-- List version of `BCIH`. -/
def BCIHList (ts : List AST) : Prop :=
  ∀ (f : FunctionFrame) (F : List (String × Option FunctionFrame)) (env : List String),
    funcFreeList ts = true → envAgree f env →
    (∃ f' env', analysisVisitList ts ⟨some f, F⟩ = .ok ⟨some f', F⟩ ∧
      bodyCheckList ts env = some env' ∧ envAgree f' env')
    ∨ (∃ n, analysisVisitList ts ⟨some f, F⟩ = .error ("Undefined variable " ++ n) ∧
        bodyCheckList ts env = none)

/-- Correspondence for a node whose walk and check just sequence two
children. -/
theorem bc_seq2 (node l rt : AST)
    (hffsplit : funcFree node = (funcFree l && funcFree rt))
    (hunfoldV : ∀ st, analysisVisit node st =
      (analysisVisit l st).bind fun s => analysisVisit rt s)
    (hunfoldC : ∀ env, bodyCheck node env = (bodyCheck l env).bind fun e => bodyCheck rt e)
    (ihl : BCIH l) (ihr : BCIH rt) : BCIH node := by
  intro f F env hff hagree
  rw [hffsplit, Bool.and_eq_true] at hff
  rcases ihl f F env hff.1 hagree with ⟨f₁, env₁, hv₁, hc₁, hag₁⟩ | ⟨n, hv₁, hc₁⟩
  · rcases ihr f₁ F env₁ hff.2 hag₁ with ⟨f₂, env₂, hv₂, hc₂, hag₂⟩ | ⟨n, hv₂, hc₂⟩
    · left
      refine ⟨f₂, env₂, ?_, ?_, hag₂⟩
      · rw [hunfoldV, hv₁]
        simpa [Except.bind] using hv₂
      · rw [hunfoldC, hc₁]
        simpa [Option.bind] using hc₂
    · right
      refine ⟨n, ?_, ?_⟩
      · rw [hunfoldV, hv₁]
        simpa [Except.bind] using hv₂
      · rw [hunfoldC, hc₁]
        simpa [Option.bind] using hc₂
  · right
    refine ⟨n, ?_, ?_⟩
    · rw [hunfoldV, hv₁]
      simp [Except.bind]
    · rw [hunfoldC, hc₁]
      simp [Option.bind]

/-- Correspondence for a node that just forwards to one child. -/
theorem bc_single (node c : AST)
    (hffsplit : funcFree node = funcFree c)
    (hunfoldV : ∀ st, analysisVisit node st = analysisVisit c st)
    (hunfoldC : ∀ env, bodyCheck node env = bodyCheck c env)
    (ihc : BCIH c) : BCIH node := by
  intro f F env hff hagree
  rw [hffsplit] at hff
  rcases ihc f F env hff hagree with ⟨f₁, env₁, hv₁, hc₁, hag₁⟩ | ⟨n, hv₁, hc₁⟩
  · exact Or.inl ⟨f₁, env₁, by rw [hunfoldV]; exact hv₁, by rw [hunfoldC]; exact hc₁, hag₁⟩
  · exact Or.inr ⟨n, by rw [hunfoldV]; exact hv₁, by rw [hunfoldC]; exact hc₁⟩

/-- Correspondence for a node that forwards to a child list. -/
theorem bc_listNode (node : AST) (ts : List AST)
    (hffsplit : funcFree node = funcFreeList ts)
    (hunfoldV : ∀ st, analysisVisit node st = analysisVisitList ts st)
    (hunfoldC : ∀ env, bodyCheck node env = bodyCheckList ts env)
    (ihts : BCIHList ts) : BCIH node := by
  intro f F env hff hagree
  rw [hffsplit] at hff
  rcases ihts f F env hff hagree with ⟨f₁, env₁, hv₁, hc₁, hag₁⟩ | ⟨n, hv₁, hc₁⟩
  · exact Or.inl ⟨f₁, env₁, by rw [hunfoldV]; exact hv₁, by rw [hunfoldC]; exact hc₁, hag₁⟩
  · exact Or.inr ⟨n, by rw [hunfoldV]; exact hv₁, by rw [hunfoldC]; exact hc₁⟩

mutual

/-- Body-level correspondence between the analysis walk and the
specification-side name checker. -/
theorem bodyCheck_visit (t : AST) : BCIH t := by
  cases t with
  | number r v =>
      intro f F env _ hagree
      exact Or.inl ⟨f, env, rfl, rfl, hagree⟩
  | id r x =>
      intro f F env _ hagree
      cases hlk : List.lookup x f.nameMap with
      | some slot =>
          have hx : x ∈ env := (hagree x).mp (by simp [hlk])
          left
          refine ⟨{ f with idMap := (r, slot) :: f.idMap }, env, ?_, ?_, hagree⟩
          · rw [visit_id_unfold]
            simp [FunctionFrame.mapLocal, hlk, Except.bind]
          · show (if x ∈ env then some env else none) = some env
            rw [if_pos hx]
      | none =>
          have hx : x ∉ env := fun hmem => by
            have := (hagree x).mpr hmem
            rw [hlk] at this
            simp at this
          right
          refine ⟨x, ?_, ?_⟩
          · rw [visit_id_unfold]
            simp [FunctionFrame.mapLocal, hlk, Except.bind]
          · show (if x ∈ env then some env else none) = none
            rw [if_neg hx]
  | not r c =>
      exact bc_single (.not r c) c rfl (fun _ => rfl) (fun _ => rfl) (bodyCheck_visit c)
  | equal r l rt =>
      exact bc_seq2 (.equal r l rt) l rt rfl (fun _ => rfl) (fun _ => rfl)
        (bodyCheck_visit l) (bodyCheck_visit rt)
  | notEqual r l rt =>
      exact bc_seq2 (.notEqual r l rt) l rt rfl (fun _ => rfl) (fun _ => rfl)
        (bodyCheck_visit l) (bodyCheck_visit rt)
  | add r l rt =>
      exact bc_seq2 (.add r l rt) l rt rfl (fun _ => rfl) (fun _ => rfl)
        (bodyCheck_visit l) (bodyCheck_visit rt)
  | subtract r l rt =>
      exact bc_seq2 (.subtract r l rt) l rt rfl (fun _ => rfl) (fun _ => rfl)
        (bodyCheck_visit l) (bodyCheck_visit rt)
  | multiply r l rt =>
      exact bc_seq2 (.multiply r l rt) l rt rfl (fun _ => rfl) (fun _ => rfl)
        (bodyCheck_visit l) (bodyCheck_visit rt)
  | divide r l rt =>
      exact bc_seq2 (.divide r l rt) l rt rfl (fun _ => rfl) (fun _ => rfl)
        (bodyCheck_visit l) (bodyCheck_visit rt)
  | call r c args =>
      exact bc_listNode (.call r c args) args rfl (fun _ => rfl) (fun _ => rfl)
        (bodyCheckList_visit args)
  | ret r c =>
      exact bc_single (.ret r c) c rfl (fun _ => rfl) (fun _ => rfl) (bodyCheck_visit c)
  | block r ss =>
      exact bc_listNode (.block r ss) ss rfl (fun _ => rfl) (fun _ => rfl)
        (bodyCheckList_visit ss)
  | ifS r c cs alt =>
      intro f F env hff hagree
      have hff' : (funcFree c && funcFree cs && funcFree alt) = true := hff
      rw [Bool.and_eq_true, Bool.and_eq_true] at hff'
      rcases bodyCheck_visit c f F env hff'.1.1 hagree with
        ⟨f₁, env₁, hv₁, hc₁, hag₁⟩ | ⟨n, hv₁, hc₁⟩
      · rcases bodyCheck_visit alt f₁ F env₁ hff'.2 hag₁ with
          ⟨f₂, env₂, hv₂, hc₂, hag₂⟩ | ⟨n, hv₂, hc₂⟩
        · rcases bodyCheck_visit cs f₂ F env₂ hff'.1.2 hag₂ with
            ⟨f₃, env₃, hv₃, hc₃, hag₃⟩ | ⟨n, hv₃, hc₃⟩
          · left
            refine ⟨f₃, env₃, ?_, ?_, hag₃⟩
            · rw [visit_ifS_unfold, hv₁]
              simp only [Except.bind]
              rw [hv₂]
              simpa [Except.bind] using hv₃
            · show (bodyCheck c env).bind _ = some env₃
              rw [hc₁]
              simp only [Option.bind]
              rw [hc₂]
              simpa [Option.bind] using hc₃
          · right
            refine ⟨n, ?_, ?_⟩
            · rw [visit_ifS_unfold, hv₁]
              simp only [Except.bind]
              rw [hv₂]
              simpa [Except.bind] using hv₃
            · show (bodyCheck c env).bind _ = none
              rw [hc₁]
              simp only [Option.bind]
              rw [hc₂]
              simpa [Option.bind] using hc₃
        · right
          refine ⟨n, ?_, ?_⟩
          · rw [visit_ifS_unfold, hv₁]
            simp only [Except.bind]
            rw [hv₂]
          · show (bodyCheck c env).bind _ = none
            rw [hc₁]
            simp only [Option.bind]
            rw [hc₂]
      · right
        refine ⟨n, ?_, ?_⟩
        · rw [visit_ifS_unfold, hv₁]
          simp [Except.bind]
        · show (bodyCheck c env).bind _ = none
          rw [hc₁]
          simp [Option.bind]
  | func r name params body =>
      intro f F env hff hagree
      exact absurd hff (by simp [funcFree])
  | var r x v =>
      intro f F env hff hagree
      have hff' : funcFree v = true := hff
      rcases bodyCheck_visit v f F env hff' hagree with
        ⟨f₁, env₁, hv₁, hc₁, hag₁⟩ | ⟨n, hv₁, hc₁⟩
      · left
        refine ⟨f₁.addLocal r x, x :: env₁, ?_, ?_, ?_⟩
        · rw [visit_var_unfold, hv₁]
          simp only [Except.bind]
        · show (bodyCheck v env).map _ = some (x :: env₁)
          rw [hc₁]
          rfl
        · intro n
          by_cases hn : n = x
          · subst hn
            simp [FunctionFrame.addLocal, List.lookup]
          · rw [show List.lookup n (f₁.addLocal r x).nameMap = List.lookup n f₁.nameMap from by
              simp [FunctionFrame.addLocal, List.lookup, beq_false_of_ne hn]]
            rw [List.mem_cons]
            simp only [hn, false_or]
            exact hag₁ n
      · right
        refine ⟨n, ?_, ?_⟩
        · rw [visit_var_unfold, hv₁]
          simp [Except.bind]
        · show (bodyCheck v env).map _ = none
          rw [hc₁]
          rfl
  | assign r x v =>
      intro f F env hff hagree
      have hff' : funcFree v = true := hff
      rcases bodyCheck_visit v f F env hff' hagree with
        ⟨f₁, env₁, hv₁, hc₁, hag₁⟩ | ⟨n, hv₁, hc₁⟩
      · cases hlk : List.lookup x f₁.nameMap with
        | some slot =>
            have hx : x ∈ env₁ := (hag₁ x).mp (by simp [hlk])
            left
            refine ⟨{ f₁ with idMap := (r, slot) :: f₁.idMap }, env₁, ?_, ?_, hag₁⟩
            · rw [visit_assign_unfold, hv₁]
              simp [Except.bind, FunctionFrame.mapLocal, hlk]
            · show (bodyCheck v env).bind _ = some env₁
              rw [hc₁]
              simp only [Option.bind]
              rw [if_pos hx]
        | none =>
            have hx : x ∉ env₁ := fun hmem => by
              have := (hag₁ x).mpr hmem
              rw [hlk] at this
              simp at this
            right
            refine ⟨x, ?_, ?_⟩
            · rw [visit_assign_unfold, hv₁]
              simp [Except.bind, FunctionFrame.mapLocal, hlk]
            · show (bodyCheck v env).bind _ = none
              rw [hc₁]
              simp only [Option.bind]
              rw [if_neg hx]
      · right
        refine ⟨n, ?_, ?_⟩
        · rw [visit_assign_unfold, hv₁]
          simp [Except.bind]
        · show (bodyCheck v env).bind _ = none
          rw [hc₁]
          rfl
  | whileS r c b =>
      exact bc_seq2 (.whileS r c b) c b rfl (fun _ => rfl) (fun _ => rfl)
        (bodyCheck_visit c) (bodyCheck_visit b)
  | module r fs =>
      intro f F env hff hagree
      exact absurd hff (by simp [funcFree])

/-- List version of `bodyCheck_visit`. -/
theorem bodyCheckList_visit (ts : List AST) : BCIHList ts := by
  cases ts with
  | nil =>
      intro f F env _ hagree
      exact Or.inl ⟨f, env, rfl, rfl, hagree⟩
  | cons t ts =>
      intro f F env hff hagree
      have hff' : (funcFree t && funcFreeList ts) = true := hff
      rw [Bool.and_eq_true] at hff'
      rcases bodyCheck_visit t f F env hff'.1 hagree with
        ⟨f₁, env₁, hv₁, hc₁, hag₁⟩ | ⟨n, hv₁, hc₁⟩
      · rcases bodyCheckList_visit ts f₁ F env₁ hff'.2 hag₁ with
          ⟨f₂, env₂, hv₂, hc₂, hag₂⟩ | ⟨n, hv₂, hc₂⟩
        · left
          refine ⟨f₂, env₂, ?_, ?_, hag₂⟩
          · rw [visitList_cons_unfold, hv₁]
            simpa [Except.bind] using hv₂
          · show (bodyCheck t env).bind _ = some env₂
            rw [hc₁]
            simpa [Option.bind] using hc₂
        · right
          refine ⟨n, ?_, ?_⟩
          · rw [visitList_cons_unfold, hv₁]
            simpa [Except.bind] using hv₂
          · show (bodyCheck t env).bind _ = none
            rw [hc₁]
            simpa [Option.bind] using hc₂
      · right
        refine ⟨n, ?_, ?_⟩
        · rw [visitList_cons_unfold, hv₁]
          simp [Except.bind]
        · show (bodyCheck t env).bind _ = none
          rw [hc₁]
          rfl

end

/-- Modelled from the claim's error conditions at module level: every
function name unseen so far, duplicate-free parameters, and a body whose
references all resolve. -/
def checkFuncs : List AST → List String → Bool
  | [], _ => true
  | .func _ name params body :: rest, seen =>
      decide (name ∉ seen) && decide params.Nodup && (bodyCheck body params).isSome &&
        checkFuncs rest (name :: seen)
  | _ :: _, _ => false

/-- Modelled from the claim: a module passes when all its functions
do. -/
def checkModule : AST → Bool
  | .module _ fs => checkFuncs fs []
  | _ => false

/-- Failure side of parameter registration: a duplicate parameter (or a
name already bound) makes `addArgument` throw the duplicate-argument
error. -/
theorem addArgumentsFold_err (params : List String) : ∀ (f : FunctionFrame),
    (¬ params.Nodup ∨ ∃ p ∈ params, (List.lookup p f.nameMap).isSome) →
    ∃ n, addArgumentsFold params f = .error ("Duplicate definition of argument " ++ n) := by
  induction params with
  | nil =>
      intro f h
      rcases h with h | ⟨p, hp, _⟩
      · exact absurd List.nodup_nil h
      · exact absurd hp (List.not_mem_nil p)
  | cons p ps ih =>
      intro f h
      by_cases hlk : (List.lookup p f.nameMap).isSome
      · refine ⟨p, ?_⟩
        show (f.addArgument p).bind (addArgumentsFold ps) = _
        rw [show f.addArgument p = .error ("Duplicate definition of argument " ++ p) from by
          simp [FunctionFrame.addArgument, hlk]]
        rfl
      · have hnone : List.lookup p f.nameMap = none := by
          cases hx : List.lookup p f.nameMap with
          | none => rfl
          | some v => rw [hx] at hlk; simp at hlk
        have hstep : f.addArgument p =
            .ok ⟨f.idMap, (p, f.frameSize) :: f.nameMap, f.frameSize + 1⟩ := by
          simp [FunctionFrame.addArgument, hnone]
        have h' : ¬ ps.Nodup ∨ ∃ q ∈ ps,
            (List.lookup q (⟨f.idMap, (p, f.frameSize) :: f.nameMap, f.frameSize + 1⟩ :
              FunctionFrame).nameMap).isSome := by
          rcases h with h | ⟨q, hq, hqs⟩
          · by_cases hp : p ∈ ps
            · refine Or.inr ⟨p, hp, ?_⟩
              simp [List.lookup]
            · left
              intro hc
              exact h (List.nodup_cons.mpr ⟨hp, hc⟩)
          · rcases List.mem_cons.mp hq with rfl | hq'
            · exact absurd hqs hlk
            · refine Or.inr ⟨q, hq', ?_⟩
              by_cases hqp : q = p
              · subst hqp
                simp [List.lookup]
              · show (List.lookup q ((p, f.frameSize) :: f.nameMap)).isSome
                rw [show List.lookup q ((p, f.frameSize) :: f.nameMap)
                    = List.lookup q f.nameMap from by
                  simp [List.lookup, beq_false_of_ne hqp]]
                exact hqs
        obtain ⟨n, hn⟩ := ih _ h'
        refine ⟨n, ?_⟩
        show (f.addArgument p).bind (addArgumentsFold ps) = _
        rw [hstep]
        simpa [Except.bind] using hn

/-- Registering parameters from the fresh frame either succeeds exactly
on duplicate-free lists (producing a name table that binds exactly the
parameters) or fails with the duplicate-argument error. -/
theorem addArgumentsFold_emptyFrame (params : List String) :
    (params.Nodup → ∃ f', addArgumentsFold params emptyFrame = .ok f' ∧
      envAgree f' params) ∧
    (¬ params.Nodup → ∃ n, addArgumentsFold params emptyFrame =
      .error ("Duplicate definition of argument " ++ n)) := by
  constructor
  · intro hnd
    obtain ⟨f', hok, _, hget, hpres, _⟩ :=
      addArgumentsFold_spec params emptyFrame hnd (fun _ _ => rfl)
    refine ⟨f', hok, ?_⟩
    intro n
    constructor
    · intro hsome
      by_contra hn
      rw [hpres n hn] at hsome
      simp [emptyFrame, List.lookup] at hsome
    · intro hn
      obtain ⟨i, hi⟩ := List.mem_iff_get?.mp hn
      rw [hget i n hi]
      rfl
  · intro hnd
    exact addArgumentsFold_err params emptyFrame (Or.inl hnd)

/-- Module-level correspondence: walking a list of well-formed function
declarations succeeds exactly when the specification-side check passes,
and any error carries one of the three claimed messages. -/
theorem funcs_visit (fs : List AST) : ∀ (F : List (String × Option FunctionFrame))
    (seen : List String),
    (∀ n, (List.lookup n F).isSome ↔ n ∈ seen) →
    (∀ t ∈ fs, ∃ rr nm ps b, t = AST.func rr nm ps b ∧ funcFree b = true) →
    ((∃ st', analysisVisitList fs ⟨none, F⟩ = .ok st') ↔ checkFuncs fs seen = true) ∧
    (∀ e, analysisVisitList fs ⟨none, F⟩ = .error e → ∃ n,
      e = "Undefined variable " ++ n ∨ e = "Redefinition of function " ++ n ∨
      e = "Duplicate definition of argument " ++ n) := by
  induction fs with
  | nil =>
      intro F seen hag hwf
      refine ⟨⟨fun _ => rfl, fun _ => ⟨⟨none, F⟩, rfl⟩⟩, fun e he => Except.noConfusion he⟩
  | cons t ts ih =>
      intro F seen hag hwf
      obtain ⟨rr, nm, ps, b, rfl, hffb⟩ := hwf t (List.mem_cons_self _ _)
      have hwfts : ∀ u ∈ ts, ∃ rr nm ps b, u = AST.func rr nm ps b ∧ funcFree b = true :=
        fun u hu => hwf u (List.mem_cons_of_mem _ hu)
      by_cases hdup : (List.lookup nm F).isSome
      · have hvf : analysisVisit (.func rr nm ps b) ⟨none, F⟩ =
            .error ("Redefinition of function " ++ nm) := by
          rw [visit_func_unfold, if_pos hdup]
        have hlist : analysisVisitList (.func rr nm ps b :: ts) ⟨none, F⟩ =
            .error ("Redefinition of function " ++ nm) := by
          rw [visitList_cons_unfold, hvf]
          rfl
        have hseen : nm ∈ seen := (hag nm).mp hdup
        constructor
        · constructor
          · rintro ⟨st', hst⟩
            rw [hlist] at hst
            cases hst
          · intro hchk
            have hchk' : (decide (nm ∉ seen) && decide ps.Nodup &&
                (bodyCheck b ps).isSome && checkFuncs ts (nm :: seen)) = true := hchk
            simp [hseen] at hchk'
        · intro e he
          rw [hlist] at he
          injection he with he
          exact ⟨nm, Or.inr (Or.inl he.symm)⟩
      · have hnm : nm ∉ seen := fun hc => hdup ((hag nm).mpr hc)
        by_cases hnodup : ps.Nodup
        · obtain ⟨f₀, hfold, hagp⟩ := (addArgumentsFold_emptyFrame ps).1 hnodup
          rcases bodyCheck_visit b f₀ F ps hffb hagp with
            ⟨f₂, env₂, hvb, hcb, hag₂⟩ | ⟨n, hvb, hcb⟩
          · have hvf : analysisVisit (.func rr nm ps b) ⟨none, F⟩ =
                .ok ⟨none, (nm, some f₂) :: F⟩ := by
              rw [visit_func_unfold, if_neg hdup, hfold]
              simp only [Except.bind]
              have hvb' : analysisVisit b
                  { (⟨none, F⟩ : AnalysisState) with currentFrame := some f₀ } =
                    .ok ⟨some f₂, F⟩ := hvb
              rw [hvb']
            have hag' : ∀ n, (List.lookup n ((nm, some f₂) :: F)).isSome ↔ n ∈ nm :: seen := by
              intro n
              by_cases hn : n = nm
              · subst hn
                simp [List.lookup]
              · rw [show List.lookup n ((nm, some f₂) :: F) = List.lookup n F from by
                  simp [List.lookup, beq_false_of_ne hn]]
                rw [List.mem_cons]
                simp only [hn, false_or]
                exact hag n
            obtain ⟨hiff, herr⟩ := ih ((nm, some f₂) :: F) (nm :: seen) hag' hwfts
            constructor
            · constructor
              · rintro ⟨st', hst⟩
                rw [visitList_cons_unfold, hvf] at hst
                simp only [Except.bind] at hst
                have hts := hiff.mp ⟨st', hst⟩
                show (decide (nm ∉ seen) && decide ps.Nodup &&
                  (bodyCheck b ps).isSome && checkFuncs ts (nm :: seen)) = true
                simp [hnm, hnodup, hcb, hts]
              · intro hchk
                have hchk' : (decide (nm ∉ seen) && decide ps.Nodup &&
                    (bodyCheck b ps).isSome && checkFuncs ts (nm :: seen)) = true := hchk
                simp [hnm, hnodup, hcb] at hchk'
                obtain ⟨st', hst⟩ := hiff.mpr hchk'
                refine ⟨st', ?_⟩
                rw [visitList_cons_unfold, hvf]
                simpa [Except.bind] using hst
            · intro e he
              rw [visitList_cons_unfold, hvf] at he
              simp only [Except.bind] at he
              exact herr e he
          · have hvf : analysisVisit (.func rr nm ps b) ⟨none, F⟩ =
                .error ("Undefined variable " ++ n) := by
              rw [visit_func_unfold, if_neg hdup, hfold]
              simp only [Except.bind]
              have hvb' : analysisVisit b
                  { (⟨none, F⟩ : AnalysisState) with currentFrame := some f₀ } =
                    .error ("Undefined variable " ++ n) := hvb
              rw [hvb']
            have hlist : analysisVisitList (.func rr nm ps b :: ts) ⟨none, F⟩ =
                .error ("Undefined variable " ++ n) := by
              rw [visitList_cons_unfold, hvf]
              rfl
            constructor
            · constructor
              · rintro ⟨st', hst⟩
                rw [hlist] at hst
                cases hst
              · intro hchk
                have hchk' : (decide (nm ∉ seen) && decide ps.Nodup &&
                    (bodyCheck b ps).isSome && checkFuncs ts (nm :: seen)) = true := hchk
                simp [hcb] at hchk'
            · intro e he
              rw [hlist] at he
              injection he with he
              exact ⟨n, Or.inl he.symm⟩
        · obtain ⟨n, hfold⟩ := (addArgumentsFold_emptyFrame ps).2 hnodup
          have hvf : analysisVisit (.func rr nm ps b) ⟨none, F⟩ =
              .error ("Duplicate definition of argument " ++ n) := by
            rw [visit_func_unfold, if_neg hdup, hfold]
            rfl
          have hlist : analysisVisitList (.func rr nm ps b :: ts) ⟨none, F⟩ =
              .error ("Duplicate definition of argument " ++ n) := by
            rw [visitList_cons_unfold, hvf]
            rfl
          constructor
          · constructor
            · rintro ⟨st', hst⟩
              rw [hlist] at hst
              cases hst
            · intro hchk
              have hchk' : (decide (nm ∉ seen) && decide ps.Nodup &&
                  (bodyCheck b ps).isSome && checkFuncs ts (nm :: seen)) = true := hchk
              simp [hnodup] at hchk'
          · intro e he
            rw [hlist] at he
            injection he with he
            exact ⟨n, Or.inr (Or.inr he.symm)⟩

/-- C8: for every well-formed module (a list of function declarations
whose bodies contain no nested function or module node), frame analysis
completes normally exactly when no two functions share a name, no
parameter list repeats a name, and every `Id`/`Assign` in a body resolves
against the bindings in scope (the specification-side `checkModule`); and
every error it throws carries the offending name in one of the three
messages "Undefined variable", "Redefinition of function", or "Duplicate
definition of argument". -/
theorem c8_analysis_errors (m : AST) (hwf : wfModuleB m = true) :
    ((∃ fr, analyzeFrames m = .ok fr) ↔ checkModule m = true) ∧
    (∀ e, analyzeFrames m = .error e → ∃ n,
      e = "Undefined variable " ++ n ∨ e = "Redefinition of function " ++ n ∨
      e = "Duplicate definition of argument " ++ n) := by
  cases m
  case module r fs =>
    have hwf' : ∀ t ∈ fs, ∃ rr nm ps b, t = AST.func rr nm ps b ∧ funcFree b = true := by
      intro t ht
      have hall : (fs.all fun u => match u with
          | .func _ _ _ b => funcFree b
          | _ => false) = true := hwf
      rw [List.all_eq_true] at hall
      have hu := hall t ht
      cases t
      case func rr nm ps b => exact ⟨rr, nm, ps, b, rfl, hu⟩
      all_goals exact Bool.noConfusion hu
    obtain ⟨hiff, herr⟩ := funcs_visit fs [] [] (by intro n; simp [List.lookup]) hwf'
    constructor
    · constructor
      · rintro ⟨fr, hfr⟩
        show checkFuncs fs [] = true
        apply hiff.mp
        have hfr' : (analysisVisitList fs ⟨none, []⟩).map
            (fun st => st.functionFrames) = .ok fr := hfr
        cases hl : analysisVisitList fs ⟨none, []⟩ with
        | ok st' => exact ⟨st', rfl⟩
        | error e' =>
            rw [hl] at hfr'
            simp [Except.map] at hfr'
      · intro hchk
        obtain ⟨st', hst⟩ := hiff.mpr (show checkFuncs fs [] = true from hchk)
        refine ⟨st'.functionFrames, ?_⟩
        show (analysisVisitList fs ⟨none, []⟩).map (fun st => st.functionFrames) =
          .ok st'.functionFrames
        rw [hst]
        rfl
    · intro e he
      have he' : (analysisVisitList fs ⟨none, []⟩).map
          (fun st => st.functionFrames) = .error e := he
      cases hl : analysisVisitList fs ⟨none, []⟩ with
      | ok st' =>
          rw [hl] at he'
          simp [Except.map] at he'
      | error e' =>
          rw [hl] at he'
          have hee : e' = e := by simpa [Except.map] using he'
          exact herr e (hee ▸ hl)
  all_goals exact Bool.noConfusion hwf

/-- A concrete well-formed module exercising the C8 theorem. -/
def c8Module : AST :=
  .module 0 [.func 1 "f" ["p"] (.block 2 [.var 3 "x" (.id 4 "p"),
    .ret 5 (.add 6 (.id 7 "x") (.id 8 "p"))])]

/-- C8 witness: the theorem applied to a concrete module, its
well-formedness hypothesis discharged by evaluation. -/
theorem c8_analysis_errors_witness :
    wfModuleB c8Module = true ∧
    ((∃ fr, analyzeFrames c8Module = .ok fr) ↔ checkModule c8Module = true) ∧
    (∀ e, analyzeFrames c8Module = .error e → ∃ n,
      e = "Undefined variable " ++ n ∨ e = "Redefinition of function " ++ n ∨
      e = "Duplicate definition of argument " ++ n) :=
  ⟨rfl, (c8_analysis_errors c8Module rfl).1, (c8_analysis_errors c8Module rfl).2⟩
